import Mathlib

/-!
# service-version: deploy records kept in flat files

A shallow embedding of `service-version.go`.  The program keeps, for every
service, a directory holding three files (`current`, `rollback`, `history`)
with JSON documents, and updates them on every store request.

* Go strings are modelled as strings of Unicode characters, and so are file contents; a
  Go string holding bytes that are not valid UTF-8 has no counterpart in the model.
* The file system the program sees is the working directory: a map from a name to
  what it names there, a regular file or a directory with the files it holds; the
  helpers `readDir`, `readFile`, `writeFile`, `mkdir` stand for `ioutil.ReadDir`,
  `ioutil.ReadFile`, `ioutil.WriteFile`, `os.Mkdir`.  The path
  `fmt.Sprintf("%s/%s", serviceName, file)` is the pair of a directory name and a
  file name.
* `encoding/json` is not part of the repository: the model takes it as a
  parameter (`Codec`), and the theorems say which of its laws they use.
* The round trip through the files is a property of `encoding/json` itself.  For it the
  read and write paths are embedded once more (namespace `Raw`), with the strings of the
  records as Go holds them, runes and bytes that are not valid UTF-8, and with
  `json.Marshal` and `json.Unmarshal` written out for the three record types.
* `time.Now().Format(...)` is the parameter `now` of the writing functions.
* Log output is not modelled.
-/

namespace ServiceVersion

/-! ## Data model -/

/-- Deploy corresponds to a single entry of a deploy. -/
structure Deploy where
  Date : String
  Version : String
  Restart : Bool
  deriving DecidableEq, Repr

/-- Rollback corresponds to rollback version. -/
structure Rollback where
  Version : String
  deriving DecidableEq, Repr

/-- Response corresponds to the http response for a service deploy. -/
structure Response where
  Current : Deploy
  Rollback : Rollback
  History : List Deploy
  deriving DecidableEq, Repr

/-- The zero value of `Deploy` (what `var current Deploy` holds). -/
def Deploy.zero : Deploy := { Date := "", Version := "", Restart := false }

/-- The zero value of `Rollback`. -/
def Rollback.zero : Rollback := { Version := "" }

/-- The zero value of `Response` (what `new(Response)` points to); the nil slice is the
empty list. -/
def Response.zero : Response :=
  { Current := Deploy.zero, Rollback := Rollback.zero, History := [] }

/-- Errors the program can see: the ones of the file system and the ones of the decoder. -/
inductive GoError where
  | notExist (path : String)
  | exist (path : String)
  | notDir (path : String)
  | nameTooLong (path : String)
  | json (msg : String)
  deriving DecidableEq, Repr

/-! ## The file system -/

/-- File contents. -/
abbrev Bytes := String

/-- One directory: its files, name and content. -/
abbrev Dir := List (String × Bytes)

/-- What a name of the working directory names: a regular file or a directory. -/
inductive Node where
  | file (data : Bytes)
  | dir (d : Dir)
  deriving DecidableEq, Repr

/-- The working directory: what each name names there, if anything. -/
abbrev FS := String → Option Node

/-- The file system in which the directory `dirName` is `d`, every other name as before. -/
def FS.set (fs : FS) (dirName : String) (d : Dir) : FS :=
  fun n => if n = dirName then some (.dir d) else fs n

/-- The content of a file of a directory, when there is such a file. -/
def Dir.find (d : Dir) (file : String) : Option Bytes :=
  match d with
  | [] => none
  | (n, b) :: rest => if n = file then some b else Dir.find rest file

/-- Create the file or replace its content. -/
def Dir.put (d : Dir) (file : String) (data : Bytes) : Dir :=
  match d with
  | [] => [(file, data)]
  | (n, b) :: rest => if n = file then (n, data) :: rest else (n, b) :: Dir.put rest file data

/-- The file names of a directory, sorted by name as `ioutil.ReadDir` returns them. -/
def Dir.names (d : Dir) : List String :=
  (d.map Prod.fst).insertionSort (fun a b => a ≤ b)

/-- `ioutil.ReadDir(dirName)`: the sorted entries, or an error when the name names
nothing or a regular file. -/
def readDir (fs : FS) (dirName : String) : Except GoError (List String) :=
  match fs dirName with
  | none => .error (.notExist dirName)
  | some (.file _) => .error (.notDir dirName)
  | some (.dir d) => .ok d.names

/-- `ioutil.ReadFile(dirName/file)`: the content and no error, or nil and an error. -/
def readFile (fs : FS) (dirName file : String) : Bytes × Option GoError :=
  match fs dirName with
  | none => ("", some (.notExist (dirName ++ "/" ++ file)))
  | some (.file _) => ("", some (.notDir (dirName ++ "/" ++ file)))
  | some (.dir d) =>
    match d.find file with
    | none => ("", some (.notExist (dirName ++ "/" ++ file)))
    | some b => (b, none)

/-- `ioutil.WriteFile(dirName/file, data, mode)`: creates or truncates the file; fails (and
changes nothing) when `dirName` is not a directory.  Every caller drops the error, so only
the new file system is returned. -/
def writeFile (fs : FS) (dirName file : String) (data : Bytes) : FS :=
  match fs dirName with
  | some (.dir d) => fs.set dirName (d.put file data)
  | _ => fs

/-- The names a directory entry can have: one path component (no slash, no NUL byte, not
`.` or `..`), not empty and at most 255 bytes long. -/
def entryName (name : String) : Bool :=
  decide (name ≠ "") && decide (name ≠ ".") && decide (name ≠ "..") &&
    decide ('/' ∉ name.data) && decide (Char.ofNat 0 ∉ name.data) &&
    decide (name.utf8ByteSize ≤ 255)

/-- `os.Mkdir(dirName, mode)`: a new empty directory in the working directory.  It fails
when the name is empty (`ENOENT`), longer than 255 bytes (`ENAMETOOLONG`), or taken by a
file or a directory (`EEXIST`, which is also the answer for `.` and `..`).  A name with a
slash is a path into another directory: the model keeps no nested directories, and takes
its parent to be missing (`ENOENT`). -/
def mkdir (fs : FS) (dirName : String) : Except GoError FS :=
  if dirName = "" then .error (.notExist dirName)
  else if '/' ∈ dirName.data ∨ Char.ofNat 0 ∈ dirName.data then .error (.notExist dirName)
  else if dirName = "." ∨ dirName = ".." then .error (.exist dirName)
  else if dirName.utf8ByteSize > 255 then .error (.nameTooLong dirName)
  else
    match fs dirName with
    | some _ => .error (.exist dirName)
    | none => .ok (fs.set dirName [])

/-! ## The JSON library, as a parameter -/

/-- The calls of `encoding/json` the program makes.  `json.Marshal` cannot fail on these
three types, so the marshallers return the document only.  An unmarshaller returns what
`json.Unmarshal(data, &v)` leaves in a zero-initialised `v`, with the error it returns. -/
structure Codec where
  marshalDeploy : Deploy → Bytes
  marshalRollback : Rollback → Bytes
  marshalHistory : List Deploy → Bytes
  unmarshalDeploy : Bytes → Deploy × Option GoError
  unmarshalRollback : Bytes → Rollback × Option GoError
  unmarshalHistory : Bytes → List Deploy × Option GoError

/-- The laws of `encoding/json` the theorems rely on: a document written by `Marshal` is
read back by `Unmarshal` as the value it was made from, without error, and `Unmarshal` of
no data at all leaves the target untouched. -/
structure Codec.Lawful (J : Codec) : Prop where
  deploy : ∀ d, J.unmarshalDeploy (J.marshalDeploy d) = (d, none)
  rollback : ∀ r, J.unmarshalRollback (J.marshalRollback r) = (r, none)
  history : ∀ h, J.unmarshalHistory (J.marshalHistory h) = (h, none)
  deployNil : (J.unmarshalDeploy "").1 = Deploy.zero
  rollbackNil : (J.unmarshalRollback "").1 = Rollback.zero
  historyNil : (J.unmarshalHistory "").1 = []

/-! ## The program -/

/-- The statement `deploys[i], deploys[j] = deploys[j], deploys[i]`; an index out of range
panics (`none`). -/
def swap (deploys : List Deploy) (i j : Int) : Option (List Deploy) :=
  if 0 ≤ i ∧ 0 ≤ j then
    match deploys[i.toNat]?, deploys[j.toNat]? with
    | some x, some y => some ((deploys.set i.toNat y).set j.toNat x)
    | _, _ => none
  else none

/-- The loop of `reverse`, from the state `i, j`:
`for ; i < j; i, j = i+1, j-1 { deploys[i], deploys[j] = deploys[j], deploys[i] }`. -/
def reverseLoop (deploys : List Deploy) (i j : Int) : Option (List Deploy) :=
  if i < j then
    match swap deploys i j with
    | none => none
    | some deploys1 => reverseLoop deploys1 (i + 1) (j - 1)
  else some deploys
termination_by (j - i).toNat
decreasing_by omega

/-- The function `reverse`: the loop started at `i, j := 0, len(deploys)-1`; `none` is a
panic. -/
def reverse (deploys : List Deploy) : Option (List Deploy) :=
  reverseLoop deploys 0 ((deploys.length : Int) - 1)

/-- The body of the loop of `findServiceFromFile`, for one directory entry: read the file,
and on one of the three known names unmarshal it into a fresh variable and store that in
the response.  The error of `ReadFile` and the errors of `json.Unmarshal` are dropped, as
in the source. -/
def loadEntry (J : Codec) (fs : FS) (serviceName : String) (resp : Response)
    (file : String) : Response :=
  let f := (readFile fs serviceName file).1
  if file = "current" then
    { resp with Current := (J.unmarshalDeploy f).1 }
  else if file = "rollback" then
    { resp with Rollback := (J.unmarshalRollback f).1 }
  else if file = "history" then
    { resp with History := (J.unmarshalHistory f).1 }
  else resp

/-- The read path: `findServiceFromFile`.  The test `err != nil` after the loop looks at
the error of `ReadDir`, which is nil there, so the function returns `nil` once the
directory could be listed. -/
def findServiceFromFile (J : Codec) (fs : FS) (serviceName : String) :
    Response × Option GoError :=
  match readDir fs serviceName with
  | .error err => (Response.zero, some err)
  | .ok f => (f.foldl (loadEntry J fs serviceName) Response.zero, none)

/-- The three `WriteFile` calls that end `createFirstTime`: the records of a state, each
marshalled into its file. -/
def writeRecords (J : Codec) (fs : FS) (serviceName : String) (s : Response) : FS :=
  let fs1 := writeFile fs serviceName "current" (J.marshalDeploy s.Current)
  let fs2 := writeFile fs1 serviceName "rollback" (J.marshalRollback s.Rollback)
  writeFile fs2 serviceName "history" (J.marshalHistory s.History)

/-- The first write of a service: `createFirstTime`; `none` is the `log.Panic` taken when
the directory cannot be made. -/
def createFirstTime (J : Codec) (fs : FS) (serviceName version now : String) : Option FS :=
  match mkdir fs serviceName with
  | .error _ => none
  | .ok fs0 =>
    let dep : Deploy := { Version := version, Date := now, Restart := false }
    let hist := [dep]
    some (writeRecords J fs0 serviceName
      { Current := dep, Rollback := { Version := version }, History := hist })

/-- Every later write of a service: `addDeployVersion`; `none` is a panic (an index out of
range in `reverse`). -/
def addDeployVersion (J : Codec) (fs : FS) (serviceName version restart now : String) :
    Option FS :=
  let new : Deploy := { Version := version, Date := now, Restart := decide (restart.length > 0) }
  let depEntry := J.marshalDeploy new
  let fs1 :=
    if restart.length = 0 then
      let f := (readFile fs serviceName "current").1
      let current := (J.unmarshalDeploy f).1
      let rb := J.marshalRollback { Version := current.Version }
      writeFile fs serviceName "rollback" rb
    else fs
  let fs2 := writeFile fs1 serviceName "current" depEntry
  let his := (readFile fs2 serviceName "history").1
  let history := (J.unmarshalHistory his).1
  match reverse history with
  | none => none
  | some history1 =>
    let history2 := history1 ++ [new]
    match reverse history2 with
    | none => none
    | some history3 =>
      let histEntry := J.marshalHistory history3
      some (writeFile fs2 serviceName "history" histEntry)

/-- What a handler marshals into the body of its answer. -/
inductive Body where
  | service (r : Response)
  | current (d : Deploy)
  | rollback (r : Rollback)
  | error (status : String) (err : GoError)
  deriving DecidableEq, Repr

/-- The answer of a handler: the status code and the value marshalled into the body. -/
structure Reply where
  status : Nat
  body : Body
  deriving DecidableEq, Repr

/-- `RetrieveServiceHandler`: the whole state of a service, or status 500. -/
def RetrieveServiceHandler (J : Codec) (fs : FS) (service : String) : FS × Reply :=
  match findServiceFromFile J fs service with
  | (_, some err) => (fs, { status := 500, body := .error "Internal Server Error" err })
  | (resp, none) => (fs, { status := 200, body := .service resp })

/-- `StoreServiceHandler`, on the route variables `service`, `version` and `restart`; a
variable the route does not have reads as the empty string.  `none` is a panic of the
write. -/
def StoreServiceHandler (J : Codec) (fs : FS) (service version restart now : String) :
    Option (FS × Reply) :=
  let written :=
    match readDir fs service with
    | .error _ => createFirstTime J fs service version now
    | .ok _ => addDeployVersion J fs service version restart now
  match written with
  | none => none
  | some fs1 => some (RetrieveServiceHandler J fs1 service)

/-- One write to a service after the first: the version, the restart argument and the
time of the write. -/
structure Event where
  version : String
  restart : String
  now : String
  deriving DecidableEq, Repr

/-- Apply a sequence of later writes in order, each through `addDeployVersion`. -/
def applyEvents (J : Codec) (fs : FS) (serviceName : String) : List Event → Option FS
  | [] => some fs
  | e :: rest =>
    match addDeployVersion J fs serviceName e.version e.restart e.now with
    | none => none
    | some fs1 => applyEvents J fs1 serviceName rest

/-- A first deploy through `createFirstTime`, then the later writes in order. -/
def deploySequence (J : Codec) (fs : FS) (serviceName version now : String)
    (later : List Event) : Option FS :=
  match createFirstTime J fs serviceName version now with
  | none => none
  | some fs1 => applyEvents J fs1 serviceName later


/-- Whether the name names a directory, that is whether `ioutil.ReadDir` succeeds on it. -/
def isDir (fs : FS) (name : String) : Bool :=
  match fs name with
  | some (.dir _) => true
  | _ => false

/-- The state a reader finds after a first deploy and the later writes: `none` when a
write panicked or the read failed. -/
def stateAfter (J : Codec) (fs : FS) (serviceName version now : String)
    (later : List Event) : Option Response :=
  match deploySequence J fs serviceName version now later with
  | none => none
  | some fs1 =>
    match findServiceFromFile J fs1 serviceName with
    | (s, none) => some s
    | (_, some _) => none

/-! ## Definitions used to state and prove the properties -/

/-- What the read path makes of one directory: each of the three records is what the
decoder leaves of the file with its name, and the zero value when there is no such file. -/
def Dir.load (J : Codec) (d : Dir) : Response :=
  { Current := match d.find "current" with
      | some b => (J.unmarshalDeploy b).1
      | none => Deploy.zero
    Rollback := match d.find "rollback" with
      | some b => (J.unmarshalRollback b).1
      | none => Rollback.zero
    History := match d.find "history" with
      | some b => (J.unmarshalHistory b).1
      | none => [] }

/-- The state a later write leaves, from the state the directory held: the transition
`addDeployVersion` performs on the loaded records. -/
def nextState (s : Response) (version restart now : String) : Response :=
  { Current := { Version := version, Date := now, Restart := decide (restart.length > 0) }
    Rollback := if restart.length = 0 then { Version := s.Current.Version } else s.Rollback
    History := { Version := version, Date := now, Restart := decide (restart.length > 0) }
      :: s.History }

/-- The deploy record a later write makes of its event. -/
def Event.deploy (e : Event) : Deploy :=
  { Version := e.version, Date := e.now, Restart := decide (e.restart.length > 0) }

/-- The records after a sequence of later writes, from the records before it. -/
def runEvents (s : Response) (evs : List Event) : Response :=
  evs.foldl (fun s e => nextState s e.version e.restart e.now) s

/-- The records the first deploy writes. -/
def firstState (version now : String) : Response :=
  { Current := { Version := version, Date := now, Restart := false }
    Rollback := { Version := version }
    History := [{ Version := version, Date := now, Restart := false }] }

/-! ## A JSON codec

A codec for the compact documents `json.Marshal` writes for the three record types, with
quote and backslash escaped inside strings.  It is an instance of `Codec` for which the
laws are proved, so that the theorems about the program can be applied to it. -/

/-- The double quote. -/
def dquote : Char := Char.ofNat 34

/-- The backslash. -/
def bslash : Char := Char.ofNat 92

/-- The text of a string between its quotes: quote and backslash are escaped. -/
def escape : List Char → List Char
  | [] => []
  | c :: cs => if c = dquote ∨ c = bslash then bslash :: c :: escape cs else c :: escape cs

/-- Put a character in front of the string that was read. -/
def consRead (c : Char) : Option (List Char × List Char) → Option (List Char × List Char)
  | none => none
  | some (s, r) => some (c :: s, r)

/-- Read a string up to its closing quote; the opening one has been read, and `esc` tells
that the last character read was an escaping backslash. -/
def readString (esc : Bool) : List Char → Option (List Char × List Char)
  | [] => none
  | c :: rest =>
    if esc then
      if c = dquote ∨ c = bslash then consRead c (readString false rest) else none
    else if c = dquote then some ([], rest)
    else if c = bslash then readString true rest
    else consRead c (readString false rest)

/-- Read the given characters, or fail. -/
def expect : List Char → List Char → Option (List Char)
  | [], inp => some inp
  | _ :: _, [] => none
  | c :: cs, d :: ds => if c = d then expect cs ds else none

/-- The text of a boolean. -/
def boolText (b : Bool) : List Char := if b then "true".data else "false".data

/-- Read a boolean. -/
def readBool (inp : List Char) : Option (Bool × List Char) :=
  match expect "true".data inp with
  | some r => some (true, r)
  | none =>
    match expect "false".data inp with
    | some r => some (false, r)
    | none => none

/-- The document of a deploy, written in front of `tail`. -/
def writeDeploy (d : Deploy) (tail : List Char) : List Char :=
  "\x7b\"date\":\"".data ++ (escape d.Date.data ++ dquote ::
    (",\"version\":\"".data ++ (escape d.Version.data ++ dquote ::
      (",\"restart\":".data ++ (boolText d.Restart ++ ("\x7d".data ++ tail))))))

/-- Read the document of a deploy. -/
def readDeploy (inp : List Char) : Option (Deploy × List Char) :=
  match expect "\x7b\"date\":\"".data inp with
  | none => none
  | some r1 =>
    match readString false r1 with
    | none => none
    | some (date, r2) =>
      match expect ",\"version\":\"".data r2 with
      | none => none
      | some r3 =>
        match readString false r3 with
        | none => none
        | some (version, r4) =>
          match expect ",\"restart\":".data r4 with
          | none => none
          | some r5 =>
            match readBool r5 with
            | none => none
            | some (restart, r6) =>
              match expect "\x7d".data r6 with
              | none => none
              | some r7 =>
                some ({ Date := String.mk date, Version := String.mk version,
                        Restart := restart }, r7)

/-- The document of a rollback, written in front of `tail`. -/
def writeRollback (r : Rollback) (tail : List Char) : List Char :=
  "\x7b\"version\":\"".data ++ (escape r.Version.data ++ dquote :: ("\x7d".data ++ tail))

/-- Read the document of a rollback. -/
def readRollback (inp : List Char) : Option (Rollback × List Char) :=
  match expect "\x7b\"version\":\"".data inp with
  | none => none
  | some r1 =>
    match readString false r1 with
    | none => none
    | some (version, r2) =>
      match expect "\x7d".data r2 with
      | none => none
      | some r3 => some ({ Version := String.mk version }, r3)

/-- The deploys after the first one of an array, each after a comma, and the closing
bracket, written in front of `tail`. -/
def writeRest : List Deploy → List Char → List Char
  | [], tail => ']' :: tail
  | d :: ds, tail => ',' :: writeDeploy d (writeRest ds tail)

/-- The document of a history, written in front of `tail`: `null` for the nil slice. -/
def writeHistory : List Deploy → List Char → List Char
  | [], tail => "null".data ++ tail
  | d :: ds, tail => '[' :: writeDeploy d (writeRest ds tail)

/-- Read the deploys after the first one of an array, at most `fuel` of them and the
closing bracket. -/
def readRest : Nat → List Char → Option (List Deploy × List Char)
  | 0, _ => none
  | _ + 1, [] => none
  | fuel + 1, c :: rest =>
    if c = ']' then some ([], rest)
    else if c = ',' then
      match readDeploy rest with
      | none => none
      | some (d, r) =>
        match readRest fuel r with
        | none => none
        | some (ds, r2) => some (d :: ds, r2)
    else none

/-- Read the document of a history: `null`, `[]` or an array of deploys. -/
def readHistory (inp : List Char) : Option (List Deploy × List Char) :=
  match expect "null".data inp with
  | some r => some ([], r)
  | none =>
    match expect "[]".data inp with
    | some r => some ([], r)
    | none =>
      match expect "[".data inp with
      | none => none
      | some r1 =>
        match readDeploy r1 with
        | none => none
        | some (d, r2) =>
          match readRest (r2.length + 1) r2 with
          | none => none
          | some (ds, r3) => some (d :: ds, r3)

/-- The codec: a document is accepted when it is read to its end, and anything else
leaves the zero value and an error. -/
def jsonCodec : Codec where
  marshalDeploy d := String.mk (writeDeploy d [])
  marshalRollback r := String.mk (writeRollback r [])
  marshalHistory h := String.mk (writeHistory h [])
  unmarshalDeploy data :=
    match readDeploy data.data with
    | some (d, []) => (d, none)
    | _ => (Deploy.zero, some (.json "invalid document"))
  unmarshalRollback data :=
    match readRollback data.data with
    | some (r, []) => (r, none)
    | _ => (Rollback.zero, some (.json "invalid document"))
  unmarshalHistory data :=
    match readHistory data.data with
    | some (h, []) => (h, none)
    | _ => ([], some (.json "invalid document"))

/-- The file system without any service. -/
def emptyFS : FS := fun _ => none

/-- A service directory as the first deploy of version `1.0.0` leaves it. -/
def sampleDir : Dir :=
  [("current", jsonCodec.marshalDeploy
      { Date := "12-30-2020:15:09:05", Version := "1.0.0", Restart := false }),
   ("rollback", jsonCodec.marshalRollback { Version := "1.0.0" }),
   ("history", jsonCodec.marshalHistory
      [{ Date := "12-30-2020:15:09:05", Version := "1.0.0", Restart := false }])]

/-- A file system with the one service `api`. -/
def sampleFS : FS := emptyFS.set "api" sampleDir

/-- A service directory whose three files hold no JSON document of the expected shape. -/
def corruptDir : Dir :=
  [("current", "not json"), ("rollback", "\x7b\"version\":1\x7d"), ("history", "[")]

/-- A file system with the one service `api`, its records corrupt. -/
def corruptFS : FS := emptyFS.set "api" corruptDir

/-! ## The records as Go holds them, and `encoding/json` as it is

A Go string is any sequence of bytes.  `json.Marshal` reads it rune by rune and writes a
byte that is part of no valid UTF-8 encoding as `\ufffd`; `json.Unmarshal` first checks
that the data is one document and then decodes it into its target.  File contents stay
texts: what `json.Marshal` writes is always valid UTF-8. -/

namespace Raw

/-- One step of the way Go reads a string (`utf8.DecodeRuneInString`): a rune, or a byte
that is not part of a valid UTF-8 encoding. -/
inductive GoChar where
  | rune (c : Char)
  | bad (b : UInt8)
  deriving DecidableEq, Repr

/-- A Go string, as the sequence of runes and invalid bytes it is read as. -/
abbrev GoString := List GoChar

/-- Deploy, with the strings as Go holds them. -/
structure Deploy where
  Date : GoString
  Version : GoString
  Restart : Bool
  deriving DecidableEq, Repr

/-- Rollback, with the string as Go holds it. -/
structure Rollback where
  Version : GoString
  deriving DecidableEq, Repr

/-- The zero value of `Deploy`. -/
def Deploy.zero : Deploy := { Date := [], Version := [], Restart := false }

/-- The zero value of `Rollback`. -/
def Rollback.zero : Rollback := { Version := [] }

/-! ### Marshal -/

/-- The sixteen digits `json.Marshal` writes. -/
def hexDigit (n : Nat) : Char :=
  if n < 10 then Char.ofNat (48 + n) else Char.ofNat (87 + n)

/-- The text `json.Marshal` writes for one rune of a string (HTML escaping is on): quote
and backslash after a backslash, the five short escapes (`\b` and `\f` as Go 1.22 and
later write them; earlier versions write `\u0008` and `\u000c`, which are read back the
same), `\u00XX` for the other control characters and for `<`, `>`, `&`, `\u2028` and
`\u2029` for the two line separators, and every other rune as it is. -/
def appendRune (c : Char) : List Char :=
  if c = Char.ofNat 34 ∨ c = Char.ofNat 92 then [Char.ofNat 92, c]
  else if c = Char.ofNat 8 then [Char.ofNat 92, 'b']
  else if c = Char.ofNat 12 then [Char.ofNat 92, 'f']
  else if c = Char.ofNat 10 then [Char.ofNat 92, 'n']
  else if c = Char.ofNat 13 then [Char.ofNat 92, 'r']
  else if c = Char.ofNat 9 then [Char.ofNat 92, 't']
  else if c.toNat < 32 ∨ c = '<' ∨ c = '>' ∨ c = '&' then
    [Char.ofNat 92, 'u', '0', '0', hexDigit (c.toNat / 16), hexDigit (c.toNat % 16)]
  else if c = Char.ofNat 0x2028 then [Char.ofNat 92, 'u', '2', '0', '2', '8']
  else if c = Char.ofNat 0x2029 then [Char.ofNat 92, 'u', '2', '0', '2', '9']
  else [c]

/-- The text for one step of a string: an invalid byte is written as `\ufffd`. -/
def appendChar : GoChar → List Char
  | .rune c => appendRune c
  | .bad _ => [Char.ofNat 92, 'u', 'f', 'f', 'f', 'd']

/-- The text of a string between its quotes. -/
def appendString : GoString → List Char
  | [] => []
  | c :: cs => appendChar c ++ appendString cs

/-! ### The syntax of documents -/

/-- A parsed document. -/
inductive JV where
  | null
  | bool (b : Bool)
  | num
  | str (s : List Char)
  | arr (l : List JV)
  | obj (l : List (List Char × JV))

/-- The white space of a document: space, tab, line feed, carriage return. -/
def isSpace (c : Char) : Bool :=
  c = ' ' || c = Char.ofNat 9 || c = Char.ofNat 10 || c = Char.ofNat 13

/-- Drop the white space in front. -/
def skipSpace : List Char → List Char
  | [] => []
  | c :: cs => if isSpace c then skipSpace cs else c :: cs

/-- The value of a hexadecimal digit, in either case. -/
def hexVal (c : Char) : Option Nat :=
  if '0'.toNat ≤ c.toNat ∧ c.toNat ≤ '9'.toNat then some (c.toNat - 48)
  else if 'a'.toNat ≤ c.toNat ∧ c.toNat ≤ 'f'.toNat then some (c.toNat - 87)
  else if 'A'.toNat ≤ c.toNat ∧ c.toNat ≤ 'F'.toNat then some (c.toNat - 55)
  else none

/-- Four hexadecimal digits. -/
def getu4 : List Char → Option (Nat × List Char)
  | a :: b :: c :: d :: rest =>
    match hexVal a, hexVal b, hexVal c, hexVal d with
    | some x, some y, some z, some w => some (((x * 16 + y) * 16 + z) * 16 + w, rest)
    | _, _, _, _ => none
  | _ => none

/-- A second escape `\uXXXX`, as `getu4` of the source reads it after a surrogate. -/
def getu4Escaped : List Char → Option (Nat × List Char)
  | b :: u :: rest => if b = Char.ofNat 92 ∧ u = 'u' then getu4 rest else none
  | _ => none

/-- The rune of an escape `\uXXXX` whose digits have been read as `v`, with what follows:
a surrogate pair is combined, a surrogate alone becomes U+FFFD. -/
def unicodeEscape (v : Nat) (rest : List Char) : Char × List Char :=
  if 0xD800 ≤ v ∧ v < 0xE000 then
    match getu4Escaped rest with
    | some (v2, rest2) =>
      if v < 0xDC00 ∧ 0xDC00 ≤ v2 ∧ v2 < 0xE000 then
        (Char.ofNat ((v - 0xD800) * 1024 + (v2 - 0xDC00) + 0x10000), rest2)
      else (Char.ofNat 0xFFFD, rest)
    | none => (Char.ofNat 0xFFFD, rest)
  else (Char.ofNat v, rest)

/-- What follows a backslash in a string: the character it stands for and the rest. -/
def escapeSeq : List Char → Option (Char × List Char)
  | [] => none
  | e :: rest =>
    if e = 'u' then
      match getu4 rest with
      | none => none
      | some (v, rest2) => some (unicodeEscape v rest2)
    else if e = Char.ofNat 34 ∨ e = Char.ofNat 92 ∨ e = '/' then some (e, rest)
    else if e = 'b' then some (Char.ofNat 8, rest)
    else if e = 'f' then some (Char.ofNat 12, rest)
    else if e = 'n' then some (Char.ofNat 10, rest)
    else if e = 'r' then some (Char.ofNat 13, rest)
    else if e = 't' then some (Char.ofNat 9, rest)
    else none

/-- Put a character in front of the string that was read. -/
def consStr (c : Char) : Option (List Char × List Char) → Option (List Char × List Char)
  | none => none
  | some (s, r) => some (c :: s, r)

/-- A string up to its closing quote, the opening one being read: at most `fuel`
characters. -/
def parseStr : Nat → List Char → Option (List Char × List Char)
  | 0, _ => none
  | _ + 1, [] => none
  | fuel + 1, c :: rest =>
    if c = Char.ofNat 34 then some ([], rest)
    else if c = Char.ofNat 92 then
      match escapeSeq rest with
      | none => none
      | some (ch, rest2) => consStr ch (parseStr fuel rest2)
    else if c.toNat < 32 then none
    else consStr c (parseStr fuel rest)

/-- A decimal digit. -/
def isDigit (c : Char) : Bool := decide ('0'.toNat ≤ c.toNat ∧ c.toNat ≤ '9'.toNat)

/-- Drop the digits in front. -/
def skipDigits : List Char → List Char
  | [] => []
  | c :: cs => if isDigit c then skipDigits cs else c :: cs

/-- One digit at least, then the rest. -/
def digits1 : List Char → Option (List Char)
  | [] => none
  | c :: cs => if isDigit c then some (skipDigits cs) else none

/-- The exponent of a number, if there is one. -/
def parseExp (inp : List Char) : Option (List Char) :=
  match inp with
  | [] => some []
  | c :: cs =>
    if c = 'e' ∨ c = 'E' then
      match cs with
      | [] => none
      | s :: cs2 => if s = '+' ∨ s = '-' then digits1 cs2 else digits1 cs
    else some inp

/-- The fraction of a number, if there is one, and what follows it. -/
def parseFrac (inp : List Char) : Option (List Char) :=
  match inp with
  | [] => some []
  | c :: cs =>
    if c = '.' then
      match digits1 cs with
      | none => none
      | some r => parseExp r
    else parseExp inp

/-- The digits of a number before its fraction: `0`, or a digit from 1 to 9 and more
digits. -/
def parseInt (inp : List Char) : Option (List Char) :=
  match inp with
  | [] => none
  | c :: cs =>
    if c = '0' then parseFrac cs
    else if isDigit c then parseFrac (skipDigits cs)
    else none

/-- A number: only its extent matters. -/
def parseNumber (inp : List Char) : Option (List Char) :=
  match inp with
  | [] => none
  | c :: cs => if c = '-' then parseInt cs else parseInt inp

/-- Read the given characters, or fail. -/
def expectLit : List Char → List Char → Option (List Char)
  | [], inp => some inp
  | _ :: _, [] => none
  | c :: cs, d :: ds => if c = d then expectLit cs ds else none

/-- The elements of an array after its first bracket, the array being not empty: at most
`fuel` of them, each read by `pv`. -/
def parseElems (pv : List Char → Option (JV × List Char)) :
    Nat → List Char → Option (List JV × List Char)
  | 0, _ => none
  | fuel + 1, inp =>
    match pv inp with
    | none => none
    | some (v, r) =>
      match skipSpace r with
      | [] => none
      | c :: r2 =>
        if c = ',' then
          match parseElems pv fuel r2 with
          | none => none
          | some (vs, r3) => some (v :: vs, r3)
        else if c = ']' then some ([v], r2)
        else none

/-- The members of an object after its first brace, the object being not empty. -/
def parseMembers (pv : List Char → Option (JV × List Char)) :
    Nat → List Char → Option (List (List Char × JV) × List Char)
  | 0, _ => none
  | fuel + 1, inp =>
    match skipSpace inp with
    | [] => none
    | q :: r0 =>
      if q = Char.ofNat 34 then
        match parseStr (r0.length + 1) r0 with
        | none => none
        | some (key, r1) =>
          match skipSpace r1 with
          | [] => none
          | colon :: r2 =>
            if colon = ':' then
              match pv r2 with
              | none => none
              | some (v, r3) =>
                match skipSpace r3 with
                | [] => none
                | c :: r4 =>
                  if c = ',' then
                    match parseMembers pv fuel r4 with
                    | none => none
                    | some (ms, r5) => some ((key, v) :: ms, r5)
                  else if c = Char.ofNat 125 then some ([(key, v)], r4)
                  else none
            else none
      else none

/-- The nesting the scanner allows. -/
def maxNestingDepth : Nat := 10000

/-- One value, with the space before it, at nesting `depth`; `fuel` bounds the nesting
still to come. -/
def parseValue : Nat → Nat → List Char → Option (JV × List Char)
  | 0, _, _ => none
  | fuel + 1, depth, inp =>
    match skipSpace inp with
    | [] => none
    | c :: rest =>
      if c = Char.ofNat 123 then
        if depth + 1 > maxNestingDepth then none
        else
          match skipSpace rest with
          | [] => none
          | c2 :: rest2 =>
            if c2 = Char.ofNat 125 then some (.obj [], rest2)
            else
              match parseMembers (parseValue fuel (depth + 1)) (rest.length + 1) rest with
              | none => none
              | some (ms, r) => some (.obj ms, r)
      else if c = '[' then
        if depth + 1 > maxNestingDepth then none
        else
          match skipSpace rest with
          | [] => none
          | c2 :: rest2 =>
            if c2 = ']' then some (.arr [], rest2)
            else
              match parseElems (parseValue fuel (depth + 1)) (rest.length + 1) rest with
              | none => none
              | some (vs, r) => some (.arr vs, r)
      else if c = Char.ofNat 34 then
        match parseStr (rest.length + 1) rest with
        | none => none
        | some (s, r) => some (.str s, r)
      else if c = 't' then
        match expectLit "rue".data rest with
        | none => none
        | some r => some (.bool true, r)
      else if c = 'f' then
        match expectLit "alse".data rest with
        | none => none
        | some r => some (.bool false, r)
      else if c = 'n' then
        match expectLit "ull".data rest with
        | none => none
        | some r => some (.null, r)
      else
        match parseNumber (c :: rest) with
        | none => none
        | some r => some (.num, r)

/-- A whole document: one value, with space around it and nothing else (`checkValid`). -/
def parseDoc (inp : List Char) : Option JV :=
  match parseValue (inp.length + 1) 0 inp with
  | none => none
  | some (v, rest) =>
    match skipSpace rest with
    | [] => some v
    | _ :: _ => none

/-! ### Unmarshal into the records -/

/-- The fields of `Deploy`, by their names in the documents. -/
inductive Field where
  | date
  | version
  | restart
  deriving DecidableEq

/-- Whether the character `c` of a key stands for the letter `a` of a field name: the
letter itself, its capital, or the two other characters that simple case folding brings
to `s` and `k`. -/
def foldChar (a c : Char) : Bool :=
  c = a || c.toNat + 32 = a.toNat || (a = 's' && c = Char.ofNat 0x17F) ||
    (a = 'k' && c = Char.ofNat 0x212A)

/-- Whether a key is a field name, up to case. -/
def foldEq : List Char → List Char → Bool
  | [], [] => true
  | a :: as, c :: cs => foldChar a c && foldEq as cs
  | _, _ => false

/-- The field a key of an object names, if any: keys that name no field are skipped. -/
def fieldOf (key : List Char) : Option Field :=
  if foldEq "date".data key then some .date
  else if foldEq "version".data key then some .version
  else if foldEq "restart".data key then some .restart
  else none

/-- The error `Unmarshal` returns when a value has not the type of its target. -/
def typeError : GoError := .json "cannot unmarshal value into Go value"

/-- The error `Unmarshal` returns for data that is not one document. -/
def syntaxError : GoError := .json "invalid document"

/-- `Unmarshal` keeps the first error it meets. -/
def saveError (saved : Option GoError) (e : GoError) : Option GoError :=
  match saved with
  | some x => some x
  | none => some e

/-- A string read from a document, as a Go string: it holds runes only. -/
def ofText (s : List Char) : GoString := s.map GoChar.rune

/-- A value into a string: a string is stored, `null` changes nothing, any other value is
a type error and leaves the target. -/
def storeString (v : JV) (old : GoString) (saved : Option GoError) :
    GoString × Option GoError :=
  match v with
  | .str s => (ofText s, saved)
  | .null => (old, saved)
  | _ => (old, saveError saved typeError)

/-- A value into a boolean. -/
def storeBool (v : JV) (old : Bool) (saved : Option GoError) : Bool × Option GoError :=
  match v with
  | .bool b => (b, saved)
  | .null => (old, saved)
  | _ => (old, saveError saved typeError)

/-- Store one member of an object in a `Deploy`. -/
def setField (acc : Deploy × Option GoError) (key : List Char) (v : JV) :
    Deploy × Option GoError :=
  match fieldOf key with
  | none => acc
  | some .date =>
    ({ acc.1 with Date := (storeString v acc.1.Date acc.2).1 },
      (storeString v acc.1.Date acc.2).2)
  | some .version =>
    ({ acc.1 with Version := (storeString v acc.1.Version acc.2).1 },
      (storeString v acc.1.Version acc.2).2)
  | some .restart =>
    ({ acc.1 with Restart := (storeBool v acc.1.Restart acc.2).1 },
      (storeBool v acc.1.Restart acc.2).2)

/-- A document into a zero `Deploy`. -/
def decodeDeploy (v : JV) : Deploy × Option GoError :=
  match v with
  | .null => (Deploy.zero, none)
  | .obj ms => ms.foldl (fun acc m => setField acc m.1 m.2) (Deploy.zero, none)
  | _ => (Deploy.zero, some typeError)

/-- Store one member of an object in a `Rollback`. -/
def setVersion (acc : Rollback × Option GoError) (key : List Char) (v : JV) :
    Rollback × Option GoError :=
  if foldEq "version".data key then
    ({ Version := (storeString v acc.1.Version acc.2).1 }, (storeString v acc.1.Version acc.2).2)
  else acc

/-- A document into a zero `Rollback`. -/
def decodeRollback (v : JV) : Rollback × Option GoError :=
  match v with
  | .null => (Rollback.zero, none)
  | .obj ms => ms.foldl (fun acc m => setVersion acc m.1 m.2) (Rollback.zero, none)
  | _ => (Rollback.zero, some typeError)

/-- A document into a nil slice of `Deploy`: every element of an array gives one record,
read into a zero `Deploy`. -/
def decodeHistory (v : JV) : List Deploy × Option GoError :=
  match v with
  | .null => ([], none)
  | .arr vs =>
    vs.foldl (fun acc e =>
      (acc.1 ++ [(decodeDeploy e).1],
        match acc.2 with
        | some x => some x
        | none => (decodeDeploy e).2)) ([], none)
  | _ => ([], some typeError)

/-- `json.Unmarshal(data, &current)` on a zero `Deploy`. -/
def unmarshalDeploy (data : String) : Deploy × Option GoError :=
  match parseDoc data.data with
  | none => (Deploy.zero, some syntaxError)
  | some v => decodeDeploy v

/-- `json.Unmarshal(data, &rollback)` on a zero `Rollback`. -/
def unmarshalRollback (data : String) : Rollback × Option GoError :=
  match parseDoc data.data with
  | none => (Rollback.zero, some syntaxError)
  | some v => decodeRollback v

/-- `json.Unmarshal(data, &history)` on a nil slice. -/
def unmarshalHistory (data : String) : List Deploy × Option GoError :=
  match parseDoc data.data with
  | none => ([], some syntaxError)
  | some v => decodeHistory v

/-- A string with its quotes, written in front of `tail`. -/
def writeString (s : GoString) (tail : List Char) : List Char :=
  Char.ofNat 34 :: (appendString s ++ Char.ofNat 34 :: tail)

/-- The text of a boolean. -/
def boolText (b : Bool) : List Char := if b then "true".data else "false".data

/-- The document of a deploy, written in front of `tail`. -/
def writeDeploy (d : Deploy) (tail : List Char) : List Char :=
  "\x7b\"date\":".data ++ writeString d.Date
    (",\"version\":".data ++ writeString d.Version
      (",\"restart\":".data ++ (boolText d.Restart ++ Char.ofNat 125 :: tail)))

/-- The document of a rollback, written in front of `tail`. -/
def writeRollback (r : Rollback) (tail : List Char) : List Char :=
  "\x7b\"version\":".data ++ writeString r.Version (Char.ofNat 125 :: tail)

/-- The deploys after the first one of an array, each after a comma, and the closing
bracket. -/
def writeRest : List Deploy → List Char → List Char
  | [], tail => ']' :: tail
  | d :: ds, tail => ',' :: writeDeploy d (writeRest ds tail)

/-- The document of a history: `null` for the nil slice. -/
def writeHistory : List Deploy → List Char → List Char
  | [], tail => "null".data ++ tail
  | d :: ds, tail => '[' :: writeDeploy d (writeRest ds tail)

/-- `json.Marshal(dep)`. -/
def marshalDeploy (d : Deploy) : String := String.mk (writeDeploy d [])

/-- `json.Marshal(Rollback{...})`. -/
def marshalRollback (r : Rollback) : String := String.mk (writeRollback r [])

/-- `json.Marshal(history)`. -/
def marshalHistory (h : List Deploy) : String := String.mk (writeHistory h [])

/-- The rune a step of a string is read back as: an invalid byte has become U+FFFD. -/
def toRune : GoChar → Char
  | .rune c => c
  | .bad _ => Char.ofNat 0xFFFD

/-- The string as `json.Marshal` coerces it to valid UTF-8. -/
def toValid (s : GoString) : GoString := ofText (s.map toRune)

/-- Whether the string is valid UTF-8. -/
def isValid (s : GoString) : Bool :=
  s.all (fun c => match c with | .rune _ => true | .bad _ => false)

/-- The record as `json.Marshal` coerces its strings. -/
def Deploy.toValid (d : Deploy) : Deploy :=
  { Date := Raw.toValid d.Date, Version := Raw.toValid d.Version, Restart := d.Restart }

/-- Whether the strings of the record are valid UTF-8. -/
def Deploy.isValid (d : Deploy) : Bool := Raw.isValid d.Date && Raw.isValid d.Version

/-- The record as `json.Marshal` coerces its string. -/
def Rollback.toValid (r : Rollback) : Rollback := { Version := Raw.toValid r.Version }

/-- Whether the string of the record is valid UTF-8. -/
def Rollback.isValid (r : Rollback) : Bool := Raw.isValid r.Version

/-- A key without escapes is read as it stands. -/
def PlainKey (key : List Char) : Prop :=
  ∀ fuel r, key.length < fuel → parseStr fuel (key ++ Char.ofNat 34 :: r) = some (key, r)

/-- The document `writeDeploy` writes, parsed. -/
def deployDoc (d : Deploy) : JV :=
  .obj [("date".data, .str (d.Date.map toRune)), ("version".data, .str (d.Version.map toRune)),
    ("restart".data, .bool d.Restart)]

/-- The text of a deploy after its brace and the quote of its first key. -/
def deployRest (d : Deploy) (tail : List Char) : List Char :=
  "date".data ++ Char.ofNat 34 :: ':' ::
    writeString d.Date (',' :: Char.ofNat 34 :: ("version".data ++ Char.ofNat 34 :: ':' ::
      writeString d.Version (',' :: Char.ofNat 34 :: ("restart".data ++ Char.ofNat 34 ::
        ':' :: (boolText d.Restart ++ Char.ofNat 125 :: tail)))))

/-- The document `writeRollback` writes, parsed. -/
def rollbackDoc (r : Rollback) : JV :=
  .obj [("version".data, .str (r.Version.map toRune))]

/-- The document `writeHistory` writes, parsed. -/
def historyDoc : List Deploy → JV
  | [] => .null
  | d :: ds => .arr (deployDoc d :: ds.map deployDoc)

/-! ### The program on these records -/

/-- Response, with the strings as Go holds them. -/
structure Response where
  Current : Deploy
  Rollback : Rollback
  History : List Deploy
  deriving DecidableEq, Repr

/-- The zero value of `Response`. -/
def Response.zero : Response :=
  { Current := Deploy.zero, Rollback := Rollback.zero, History := [] }

/-- The statement `deploys[i], deploys[j] = deploys[j], deploys[i]`; an index out of range
panics (`none`). -/
def swap (deploys : List Deploy) (i j : Int) : Option (List Deploy) :=
  if 0 ≤ i ∧ 0 ≤ j then
    match deploys[i.toNat]?, deploys[j.toNat]? with
    | some x, some y => some ((deploys.set i.toNat y).set j.toNat x)
    | _, _ => none
  else none

/-- The loop of `reverse`, from the state `i, j`. -/
def reverseLoop (deploys : List Deploy) (i j : Int) : Option (List Deploy) :=
  if i < j then
    match swap deploys i j with
    | none => none
    | some deploys1 => reverseLoop deploys1 (i + 1) (j - 1)
  else some deploys
termination_by (j - i).toNat
decreasing_by omega

/-- The function `reverse`: the loop started at `i, j := 0, len(deploys)-1`. -/
def reverse (deploys : List Deploy) : Option (List Deploy) :=
  reverseLoop deploys 0 ((deploys.length : Int) - 1)

/-- The body of the loop of `findServiceFromFile`, for one directory entry. -/
def loadEntry (fs : FS) (serviceName : String) (resp : Response) (file : String) :
    Response :=
  let f := (readFile fs serviceName file).1
  if file = "current" then
    { resp with Current := (unmarshalDeploy f).1 }
  else if file = "rollback" then
    { resp with Rollback := (unmarshalRollback f).1 }
  else if file = "history" then
    { resp with History := (unmarshalHistory f).1 }
  else resp

/-- The read path: `findServiceFromFile`. -/
def findServiceFromFile (fs : FS) (serviceName : String) : Response × Option GoError :=
  match readDir fs serviceName with
  | .error err => (Response.zero, some err)
  | .ok f => (f.foldl (loadEntry fs serviceName) Response.zero, none)

/-- The three `WriteFile` calls that end `createFirstTime`. -/
def writeRecords (fs : FS) (serviceName : String) (s : Response) : FS :=
  let fs1 := writeFile fs serviceName "current" (marshalDeploy s.Current)
  let fs2 := writeFile fs1 serviceName "rollback" (marshalRollback s.Rollback)
  writeFile fs2 serviceName "history" (marshalHistory s.History)

/-- The first write of a service: `createFirstTime`; `none` is the `log.Panic` taken when
the directory cannot be made. -/
def createFirstTime (fs : FS) (serviceName : String) (version now : GoString) : Option FS :=
  match mkdir fs serviceName with
  | .error _ => none
  | .ok fs0 =>
    let dep : Deploy := { Version := version, Date := now, Restart := false }
    let hist := [dep]
    some (writeRecords fs0 serviceName
      { Current := dep, Rollback := { Version := version }, History := hist })

/-- Every later write of a service: `addDeployVersion`; `none` is a panic. -/
def addDeployVersion (fs : FS) (serviceName : String) (version restart now : GoString) :
    Option FS :=
  let new : Deploy := { Version := version, Date := now, Restart := decide (restart.length > 0) }
  let depEntry := marshalDeploy new
  let fs1 :=
    if restart.length = 0 then
      let f := (readFile fs serviceName "current").1
      let current := (unmarshalDeploy f).1
      let rb := marshalRollback { Version := current.Version }
      writeFile fs serviceName "rollback" rb
    else fs
  let fs2 := writeFile fs1 serviceName "current" depEntry
  let his := (readFile fs2 serviceName "history").1
  let history := (unmarshalHistory his).1
  match reverse history with
  | none => none
  | some history1 =>
    let history2 := history1 ++ [new]
    match reverse history2 with
    | none => none
    | some history3 =>
      let histEntry := marshalHistory history3
      some (writeFile fs2 serviceName "history" histEntry)

/-- What the read path makes of one directory. -/
def load (d : Dir) : Response :=
  { Current := match d.find "current" with
      | some b => (unmarshalDeploy b).1
      | none => Deploy.zero
    Rollback := match d.find "rollback" with
      | some b => (unmarshalRollback b).1
      | none => Rollback.zero
    History := match d.find "history" with
      | some b => (unmarshalHistory b).1
      | none => [] }

/-- The state as `json.Marshal` coerces its strings. -/
def Response.toValid (s : Response) : Response :=
  { Current := s.Current.toValid, Rollback := s.Rollback.toValid,
    History := s.History.map Deploy.toValid }

/-- Whether every string of the state is valid UTF-8. -/
def Response.isValid (s : Response) : Bool :=
  s.Current.isValid && s.Rollback.isValid && s.History.all Deploy.isValid

/-- The byte `0xFF`, as a version: what the path segment `%FF` is decoded to. -/
def versionFF : GoString := [GoChar.bad 255]

/-- The text of a date or a version, as a Go string. -/
def text (s : String) : GoString := ofText s.data

/-- A state whose version is the byte `0xFF`. -/
def stateFF : Response :=
  { Current := { Date := text "12-30-2020:15:09:05", Version := versionFF, Restart := false }
    Rollback := { Version := versionFF }
    History := [{ Date := text "12-30-2020:15:09:05", Version := versionFF,
                  Restart := false }] }

/-- A state whose strings are text, with characters that `json.Marshal` escapes. -/
def stateText : Response :=
  { Current := { Date := text "01-02-2021:08:00:00", Version := text "2.0 \"rc\" <β>",
                 Restart := true }
    Rollback := { Version := text "1.1.0" }
    History := [{ Date := text "01-02-2021:08:00:00", Version := text "2.0 \"rc\" <β>",
                  Restart := true },
                { Date := text "12-30-2020:15:09:05", Version := text "1.1.0",
                  Restart := false }] }

end Raw

/-! ## The loop of `reverse` -/

theorem swap_eq (l : List Deploy) (i j : Nat) (hi : i < l.length) (hj : j < l.length) :
    swap l (i : Int) (j : Int) = some ((l.set i l[j]).set j l[i]) := by
  unfold swap
  have h0 : (0 : Int) ≤ (i : Int) ∧ (0 : Int) ≤ (j : Int) := ⟨by omega, by omega⟩
  rw [if_pos h0]
  simp only [Int.toNat_ofNat]
  rw [List.getElem?_eq_getElem hi, List.getElem?_eq_getElem hj]

theorem reverseLoop_spec (n : Nat) : ∀ (l : List Deploy) (i j : Nat), j < i + n →
    (i < j → j < l.length) →
    ∃ r, reverseLoop l (i : Int) (j : Int) = some r ∧ r.length = l.length ∧
      ∀ p, r[p]? = if i ≤ p ∧ p ≤ j then l[i + j - p]? else l[p]? := by
  induction n with
  | zero =>
    intro l i j hn _
    refine ⟨l, ?_, rfl, ?_⟩
    · rw [reverseLoop, if_neg (by omega)]
    · intro p
      rw [if_neg (by omega)]
  | succ n ih =>
    intro l i j hn hlen
    by_cases hij : i < j
    · have hj := hlen hij
      have hi : i < l.length := by omega
      rw [reverseLoop, if_pos (by omega), swap_eq l i j hi hj]
      simp only
      have e1 : (i : Int) + 1 = ((i + 1 : Nat) : Int) := by omega
      have e2 : (j : Int) - 1 = ((j - 1 : Nat) : Int) := by omega
      rw [e1, e2]
      obtain ⟨r, hr, hlr, hp⟩ := ih ((l.set i l[j]).set j l[i]) (i + 1) (j - 1) (by omega)
        (by intro _; simp only [List.length_set]; omega)
      refine ⟨r, hr, by simpa using hlr, ?_⟩
      intro p
      rw [hp]
      simp only [List.getElem?_set, List.length_set]
      have hjj : l[j]? = some l[j] := List.getElem?_eq_getElem hj
      have hii : l[i]? = some l[i] := List.getElem?_eq_getElem hi
      split_ifs <;> first
        | omega
        | rfl
        | (rw [← hjj]; congr 1; omega)
        | (rw [← hii]; congr 1; omega)
        | (congr 1; omega)
    · refine ⟨l, ?_, rfl, ?_⟩
      · rw [reverseLoop, if_neg (by omega)]
      · intro p
        by_cases h1 : i ≤ p ∧ p ≤ j
        · rw [if_pos h1]
          congr 1
          omega
        · rw [if_neg h1]

/-- The swap loop never panics and computes the reversal of the list. -/
theorem reverse_eq (l : List Deploy) : reverse l = some l.reverse := by
  unfold reverse
  cases hl : l with
  | nil =>
    rw [reverseLoop, if_neg (by simp)]
    rfl
  | cons a t =>
    obtain ⟨r, hr, hlr, hp⟩ := reverseLoop_spec (a :: t).length (a :: t) 0 ((a :: t).length - 1)
      (by simp) (by intro _; simp)
    have e : (((a :: t).length : Int) - 1) = (((a :: t).length - 1 : Nat) : Int) := by
      simp
    rw [e]
    simp only [Nat.cast_zero] at hr
    rw [hr]
    congr 1
    apply List.ext_getElem?
    intro p
    rw [hp]
    by_cases h : p < (a :: t).length
    · rw [if_pos (by omega), List.getElem?_reverse h]
      congr 1
      omega
    · rw [if_neg (by omega), List.getElem?_eq_none (by omega),
        List.getElem?_eq_none (by simp only [List.length_reverse]; omega)]

/-! ## Files of a directory -/

theorem Dir.find_put_same (d : Dir) (file : String) (data : Bytes) :
    (d.put file data).find file = some data := by
  induction d with
  | nil => simp [Dir.put, Dir.find]
  | cons e rest ih =>
    obtain ⟨n, b⟩ := e
    by_cases h : n = file
    · simp [Dir.put, Dir.find, h]
    · simp [Dir.put, Dir.find, h, ih]

theorem Dir.find_put_other (d : Dir) (file other : String) (data : Bytes)
    (hne : other ≠ file) : (d.put file data).find other = d.find other := by
  induction d with
  | nil =>
    have : ¬ file = other := fun h => hne h.symm
    simp [Dir.put, Dir.find, this]
  | cons e rest ih =>
    obtain ⟨n, b⟩ := e
    by_cases h : n = file
    · have : ¬ file = other := fun h => hne h.symm
      simp [Dir.put, Dir.find, h, this]
    · by_cases h2 : n = other
      · subst h2
        simp [Dir.put, Dir.find, h]
      · simp [Dir.put, Dir.find, h, h2, ih]

theorem Dir.find_eq_none (d : Dir) (file : String) :
    d.find file = none ↔ file ∉ d.names := by
  have hm : file ∈ d.names ↔ file ∈ d.map Prod.fst :=
    (List.perm_insertionSort _ _).mem_iff
  rw [hm]
  clear hm
  induction d with
  | nil => simp [Dir.find]
  | cons e rest ih =>
    obtain ⟨n, b⟩ := e
    by_cases h : n = file
    · simp [Dir.find, h]
    · have : ¬ file = n := fun h2 => h h2.symm
      simp only [Dir.find, if_neg h, ih, List.map_cons, List.mem_cons, this, false_or]

theorem foldl_loadEntry (J : Codec) (fs : FS) (serviceName : String) (names : List String) :
    ∀ init : Response, names.foldl (loadEntry J fs serviceName) init =
      { Current := if "current" ∈ names
          then (J.unmarshalDeploy (readFile fs serviceName "current").1).1 else init.Current
        Rollback := if "rollback" ∈ names
          then (J.unmarshalRollback (readFile fs serviceName "rollback").1).1 else init.Rollback
        History := if "history" ∈ names
          then (J.unmarshalHistory (readFile fs serviceName "history").1).1 else init.History } := by
  induction names with
  | nil => intro init; simp
  | cons a rest ih =>
    intro init
    rw [List.foldl_cons, ih]
    by_cases h1 : a = "current"
    · subst h1
      simp [loadEntry]
    · by_cases h2 : a = "rollback"
      · subst h2
        simp [loadEntry]
      · by_cases h3 : a = "history"
        · subst h3
          simp [loadEntry]
        · have n1 : ¬ "current" = a := fun h => h1 h.symm
          have n2 : ¬ "rollback" = a := fun h => h2 h.symm
          have n3 : ¬ "history" = a := fun h => h3 h.symm
          simp [loadEntry, h1, h2, h3, n1, n2, n3]

/-- Loading an existing directory never fails, and returns `Dir.load` of it. -/
theorem findServiceFromFile_dir (J : Codec) (fs : FS) (serviceName : String) (d : Dir)
    (hd : fs serviceName = some (.dir d)) :
    findServiceFromFile J fs serviceName = (d.load J, none) := by
  unfold findServiceFromFile readDir
  rw [hd]
  simp only [foldl_loadEntry, Dir.load, readFile, hd, Response.zero]
  have key : ∀ file : String, file ∈ d.names ↔ ¬ (d.find file = none) := by
    intro file
    rw [Dir.find_eq_none]
    simp
  simp only [key]
  cases d.find "current" <;> cases d.find "rollback" <;> cases d.find "history" <;> simp

/-! ## The write path -/

theorem FS.set_same (fs : FS) (dirName : String) (d : Dir) :
    (fs.set dirName d) dirName = some (.dir d) := by
  simp [FS.set]

theorem FS.set_set (fs : FS) (dirName : String) (d d1 : Dir) :
    (fs.set dirName d).set dirName d1 = fs.set dirName d1 := by
  funext n
  by_cases h : n = dirName <;> simp [FS.set, h]

theorem writeFile_dir (fs : FS) (serviceName file : String) (data : Bytes) (d : Dir)
    (hd : fs serviceName = some (.dir d)) :
    writeFile fs serviceName file data = fs.set serviceName (d.put file data) := by
  unfold writeFile
  rw [hd]

theorem writeFile_set (fs : FS) (serviceName file : String) (data : Bytes) (d : Dir) :
    writeFile (fs.set serviceName d) serviceName file data =
      fs.set serviceName (d.put file data) := by
  rw [writeFile_dir _ _ _ _ d (FS.set_same fs serviceName d), FS.set_set]

theorem readFile_dir (fs : FS) (serviceName file : String) (d : Dir)
    (hd : fs serviceName = some (.dir d)) :
    (readFile fs serviceName file).1 = (d.find file).getD "" := by
  unfold readFile
  rw [hd]
  simp only
  cases d.find file <;> rfl

theorem readFile_set (fs : FS) (serviceName file : String) (d : Dir) :
    (readFile (fs.set serviceName d) serviceName file).1 = (d.find file).getD "" :=
  readFile_dir _ _ _ d (FS.set_same fs serviceName d)

theorem Dir.load_put_current (J : Codec) (hJ : J.Lawful) (d : Dir) (c : Deploy) :
    (d.put "current" (J.marshalDeploy c)).load J = { d.load J with Current := c } := by
  simp only [Dir.load, Dir.find_put_same, hJ.deploy]
  rw [Dir.find_put_other d "current" "rollback" _ (by decide),
    Dir.find_put_other d "current" "history" _ (by decide)]

theorem Dir.load_put_rollback (J : Codec) (hJ : J.Lawful) (d : Dir) (r : Rollback) :
    (d.put "rollback" (J.marshalRollback r)).load J = { d.load J with Rollback := r } := by
  simp only [Dir.load, Dir.find_put_same, hJ.rollback]
  rw [Dir.find_put_other d "rollback" "current" _ (by decide),
    Dir.find_put_other d "rollback" "history" _ (by decide)]

theorem Dir.load_put_history (J : Codec) (hJ : J.Lawful) (d : Dir) (h : List Deploy) :
    (d.put "history" (J.marshalHistory h)).load J = { d.load J with History := h } := by
  simp only [Dir.load, Dir.find_put_same, hJ.history]
  rw [Dir.find_put_other d "history" "current" _ (by decide),
    Dir.find_put_other d "history" "rollback" _ (by decide)]

theorem Dir.load_current (J : Codec) (hJ : J.Lawful) (d : Dir) :
    (J.unmarshalDeploy ((d.find "current").getD "")).1 = (d.load J).Current := by
  simp only [Dir.load]
  cases d.find "current" with
  | none => exact hJ.deployNil
  | some b => rfl

theorem Dir.load_history (J : Codec) (hJ : J.Lawful) (d : Dir) :
    (J.unmarshalHistory ((d.find "history").getD "")).1 = (d.load J).History := by
  simp only [Dir.load]
  cases d.find "history" with
  | none => exact hJ.historyNil
  | some b => rfl

/-- The three writes of `writeRecords`, on an existing directory. -/
theorem writeRecords_dir (J : Codec) (hJ : J.Lawful) (fs : FS) (serviceName : String)
    (d : Dir) (s : Response) (hd : fs serviceName = some (.dir d)) :
    ∃ d1, writeRecords J fs serviceName s = fs.set serviceName d1 ∧ d1.load J = s := by
  refine ⟨((d.put "current" (J.marshalDeploy s.Current)).put "rollback"
    (J.marshalRollback s.Rollback)).put "history" (J.marshalHistory s.History), ?_, ?_⟩
  · unfold writeRecords
    simp only
    rw [writeFile_dir fs serviceName _ _ d hd, writeFile_set, writeFile_set]
  · rw [Dir.load_put_history J hJ, Dir.load_put_rollback J hJ, Dir.load_put_current J hJ]

/-- On an existing directory `addDeployVersion` does not panic, touches that directory
only, and leaves in it the records of `nextState`; on a restart the file `rollback` is
not written. -/
theorem addDeployVersion_dir (J : Codec) (hJ : J.Lawful) (fs : FS)
    (serviceName version restart now : String) (d : Dir) (hd : fs serviceName = some (.dir d)) :
    ∃ d1, addDeployVersion J fs serviceName version restart now =
        some (fs.set serviceName d1) ∧
      d1.load J = nextState (d.load J) version restart now ∧
      (restart.length ≠ 0 → d1.find "rollback" = d.find "rollback") := by
  unfold addDeployVersion
  simp only
  by_cases hr : restart.length = 0
  · rw [if_pos hr, readFile_dir fs serviceName "current" d hd, Dir.load_current J hJ,
      writeFile_dir fs serviceName _ _ d hd, writeFile_set, readFile_set,
      Dir.find_put_other _ "current" "history" _ (by decide),
      Dir.find_put_other _ "rollback" "history" _ (by decide), Dir.load_history J hJ,
      reverse_eq]
    simp only
    rw [reverse_eq]
    simp only
    rw [writeFile_set]
    refine ⟨_, rfl, ?_, fun h => absurd hr h⟩
    rw [Dir.load_put_history J hJ, Dir.load_put_current J hJ, Dir.load_put_rollback J hJ]
    simp [nextState, hr]
  · rw [if_neg hr, writeFile_dir fs serviceName _ _ d hd, readFile_set,
      Dir.find_put_other _ "current" "history" _ (by decide), Dir.load_history J hJ,
      reverse_eq]
    simp only
    rw [reverse_eq]
    simp only
    rw [writeFile_set]
    refine ⟨_, rfl, ?_, fun _ => ?_⟩
    · rw [Dir.load_put_history J hJ, Dir.load_put_current J hJ]
      simp [nextState, hr]
    · rw [Dir.find_put_other _ "history" "rollback" _ (by decide),
        Dir.find_put_other _ "current" "rollback" _ (by decide)]

theorem mkdir_ok (fs fs0 : FS) (dirName : String)
    (hmk : mkdir fs dirName = Except.ok fs0) :
    fs dirName = none ∧ fs0 = fs.set dirName [] := by
  unfold mkdir at hmk
  split_ifs at hmk
  cases h : fs dirName with
  | none =>
    rw [h] at hmk
    simp only [Except.ok.injEq] at hmk
    exact ⟨rfl, hmk.symm⟩
  | some n =>
    rw [h] at hmk
    simp at hmk

theorem mkdir_entryName (fs : FS) (dirName : String) (hn : entryName dirName = true)
    (hd : fs dirName = none) : mkdir fs dirName = Except.ok (fs.set dirName []) := by
  simp only [entryName, Bool.and_eq_true, decide_eq_true_eq] at hn
  obtain ⟨⟨⟨⟨⟨h1, h2⟩, h3⟩, h4⟩, h5⟩, h6⟩ := hn
  unfold mkdir
  rw [if_neg h1, if_neg (by tauto), if_neg (by tauto), if_neg (by omega), hd]

/-- When `os.Mkdir` succeeds `createFirstTime` does not panic and leaves a directory
holding the records of the first deploy. -/
theorem createFirstTime_fresh (J : Codec) (hJ : J.Lawful) (fs fs0 : FS)
    (serviceName version now : String) (hmk : mkdir fs serviceName = Except.ok fs0) :
    ∃ d1, createFirstTime J fs serviceName version now = some (fs.set serviceName d1) ∧
      d1.load J =
        { Current := { Version := version, Date := now, Restart := false }
          Rollback := { Version := version }
          History := [{ Version := version, Date := now, Restart := false }] } := by
  obtain ⟨_, hfs0⟩ := mkdir_ok fs fs0 serviceName hmk
  unfold createFirstTime
  rw [hmk]
  simp only
  subst hfs0
  obtain ⟨d1, h1, h2⟩ := writeRecords_dir J hJ (fs.set serviceName []) serviceName []
    { Current := { Version := version, Date := now, Restart := false }
      Rollback := { Version := version }
      History := [{ Version := version, Date := now, Restart := false }] }
    (FS.set_same fs serviceName [])
  refine ⟨d1, ?_, h2⟩
  rw [h1, FS.set_set]

theorem length_eq_zero_iff (s : String) : s.length = 0 ↔ s = "" := by
  constructor
  · intro h
    apply String.ext
    exact List.length_eq_zero.mp h
  · intro h
    subst h
    rfl

/-! ## Sequences of writes -/

theorem applyEvents_dir (J : Codec) (hJ : J.Lawful) (serviceName : String)
    (evs : List Event) : ∀ (fs : FS) (d : Dir), fs serviceName = some (.dir d) →
    ∃ d1, applyEvents J fs serviceName evs = some (fs.set serviceName d1) ∧
      d1.load J = runEvents (d.load J) evs := by
  induction evs with
  | nil =>
    intro fs d hd
    refine ⟨d, ?_, rfl⟩
    simp only [applyEvents]
    congr 1
    funext n
    by_cases h : n = serviceName
    · subst h
      simp [FS.set, hd]
    · simp [FS.set, h]
  | cons e rest ih =>
    intro fs d hd
    obtain ⟨d1, h1, h2, _⟩ := addDeployVersion_dir J hJ fs serviceName e.version e.restart
      e.now d hd
    obtain ⟨d2, h3, h4⟩ := ih (fs.set serviceName d1) d1 (FS.set_same fs serviceName d1)
    refine ⟨d2, ?_, ?_⟩
    · simp only [applyEvents, h1, h3, FS.set_set]
    · rw [h4, h2]
      rfl

theorem deploySequence_fresh (J : Codec) (hJ : J.Lawful) (fs fs0 : FS)
    (serviceName version now : String) (later : List Event)
    (hmk : mkdir fs serviceName = Except.ok fs0) :
    ∃ d1, deploySequence J fs serviceName version now later = some (fs.set serviceName d1) ∧
      d1.load J = runEvents (firstState version now) later := by
  obtain ⟨d0, h0, hl0⟩ := createFirstTime_fresh J hJ fs fs0 serviceName version now hmk
  obtain ⟨d1, h1, hl1⟩ := applyEvents_dir J hJ serviceName later (fs.set serviceName d0) d0
    (FS.set_same fs serviceName d0)
  refine ⟨d1, ?_, ?_⟩
  · simp only [deploySequence, h0, h1, FS.set_set]
  · rw [hl1, hl0]
    rfl

theorem runEvents_append (s : Response) (a b : List Event) :
    runEvents s (a ++ b) = runEvents (runEvents s a) b := by
  simp [runEvents, List.foldl_append]

theorem runEvents_cons (s : Response) (e : Event) (rest : List Event) :
    runEvents s (e :: rest) = runEvents (nextState s e.version e.restart e.now) rest := rfl

theorem runEvents_current (evs : List Event) : ∀ s : Response,
    (runEvents s evs).Current.Version = (evs.map Event.version).getLastD s.Current.Version := by
  induction evs with
  | nil => intro s; rfl
  | cons e rest ih =>
    intro s
    rw [runEvents_cons, ih, List.map_cons, List.getLastD_cons]
    rfl

theorem runEvents_restarts (post : List Event) : ∀ s : Response,
    (∀ p ∈ post, p.restart ≠ "") → (runEvents s post).Rollback = s.Rollback := by
  induction post with
  | nil => intro s _; rfl
  | cons e rest ih =>
    intro s h
    rw [runEvents_cons, ih _ (fun p hp => h p (List.mem_cons_of_mem _ hp))]
    have he : e.restart.length ≠ 0 := fun h0 =>
      h e (List.mem_cons_self _ _) ((length_eq_zero_iff _).mp h0)
    simp [nextState, he]

theorem stateAfter_fresh (J : Codec) (hJ : J.Lawful) (fs fs0 : FS)
    (serviceName version now : String) (later : List Event)
    (hmk : mkdir fs serviceName = Except.ok fs0) :
    stateAfter J fs serviceName version now later =
      some (runEvents (firstState version now) later) := by
  obtain ⟨d1, h1, h2⟩ := deploySequence_fresh J hJ fs fs0 serviceName version now later hmk
  simp only [stateAfter, h1,
    findServiceFromFile_dir J _ serviceName d1 (FS.set_same fs serviceName d1), h2]

theorem readString_escape (s rest : List Char) :
    readString false (escape s ++ dquote :: rest) = some (s, rest) := by
  induction s with
  | nil => simp [escape, readString]
  | cons c cs ih =>
    have hne : ¬ dquote = bslash := by decide
    have hne2 : ¬ bslash = dquote := by decide
    by_cases h1 : c = dquote
    · subst h1
      simp [escape, readString, ih, hne, hne2, consRead]
    · by_cases h2 : c = bslash
      · subst h2
        simp [escape, readString, ih, h1, consRead]
      · simp [escape, readString, ih, h1, h2, consRead]

theorem expect_append (lit rest : List Char) : expect lit (lit ++ rest) = some rest := by
  induction lit with
  | nil => simp [expect]
  | cons c cs ih => simp [expect, ih]

theorem readBool_boolText (b : Bool) (rest : List Char) :
    readBool (boolText b ++ rest) = some (b, rest) := by
  cases b <;> simp [readBool, boolText, expect]

theorem readDeploy_writeDeploy (d : Deploy) (rest : List Char) :
    readDeploy (writeDeploy d rest) = some (d, rest) := by
  simp only [readDeploy, writeDeploy, expect_append, readString_escape, readBool_boolText]

theorem readRollback_writeRollback (r : Rollback) (rest : List Char) :
    readRollback (writeRollback r rest) = some (r, rest) := by
  simp only [readRollback, writeRollback, expect_append, readString_escape]

theorem length_writeRest (ds : List Deploy) (rest : List Char) :
    ds.length < (writeRest ds rest).length := by
  induction ds with
  | nil => simp [writeRest]
  | cons d ds ih =>
    simp only [writeRest, writeDeploy, List.length_cons, List.length_append]
    omega

theorem readRest_writeRest (ds : List Deploy) (rest : List Char) :
    ∀ fuel, ds.length < fuel → readRest fuel (writeRest ds rest) = some (ds, rest) := by
  induction ds with
  | nil =>
    intro fuel hf
    obtain ⟨k, rfl⟩ : ∃ k, fuel = k + 1 := ⟨fuel - 1, by simp at hf; omega⟩
    simp [writeRest, readRest]
  | cons d ds ih =>
    intro fuel hf
    obtain ⟨k, rfl⟩ : ∃ k, fuel = k + 1 := ⟨fuel - 1, by simp at hf; omega⟩
    have hk : ds.length < k := by simp at hf; omega
    simp [writeRest, readRest, readDeploy_writeDeploy, ih k hk]

theorem readHistory_writeHistory (h : List Deploy) (rest : List Char) :
    readHistory (writeHistory h rest) = some (h, rest) := by
  cases h with
  | nil => simp only [readHistory, writeHistory, expect_append]
  | cons d ds =>
    have h1 : expect "null".data ('[' :: writeDeploy d (writeRest ds rest)) = none := by
      simp [expect]
    have h2 : expect "[]".data ('[' :: writeDeploy d (writeRest ds rest)) = none := by
      simp [expect, writeDeploy]
    have h3 : expect "[".data ('[' :: writeDeploy d (writeRest ds rest)) =
        some (writeDeploy d (writeRest ds rest)) := by
      simp [expect]
    simp only [readHistory, writeHistory, h1, h2, h3, readDeploy_writeDeploy]
    rw [readRest_writeRest ds rest _ (by have := length_writeRest ds rest; omega)]

/-- The codec satisfies the laws. -/
theorem jsonCodec_lawful : jsonCodec.Lawful where
  deploy d := by simp [jsonCodec, readDeploy_writeDeploy]
  rollback r := by simp [jsonCodec, readRollback_writeRollback]
  history h := by simp [jsonCodec, readHistory_writeHistory]
  deployNil := by decide
  rollbackNil := by decide
  historyNil := by decide


/-! ## The store handler -/

/-- What `StoreServiceHandler` does when the directory exists or `os.Mkdir` can make it:
it does not panic, answers 200 with the state it then loads, and the deploy it records as
current carries the restart flag of the request only when the directory existed. -/
theorem StoreServiceHandler_spec (J : Codec) (hJ : J.Lawful) (fs : FS)
    (service version restart now : String)
    (hok : (∃ d, fs service = some (.dir d)) ∨ ∃ fs0, mkdir fs service = Except.ok fs0) :
    ∃ fs1 s, StoreServiceHandler J fs service version restart now =
        some (fs1, { status := 200, body := .service s }) ∧
      findServiceFromFile J fs1 service = (s, none) ∧
      s.Current = { Date := now, Version := version,
                    Restart := isDir fs service && decide (restart.length > 0) } := by
  rcases hok with ⟨d, hd⟩ | ⟨fs0, hmk⟩
  · obtain ⟨d1, h1, h2, _⟩ := addDeployVersion_dir J hJ fs service version restart now d hd
    have hl := findServiceFromFile_dir J (fs.set service d1) service d1 (FS.set_same _ _ _)
    refine ⟨fs.set service d1, d1.load J, ?_, hl, ?_⟩
    · simp only [StoreServiceHandler, readDir, hd, h1, RetrieveServiceHandler, hl]
    · rw [h2]
      simp [nextState, isDir, hd]
  · obtain ⟨hd, _⟩ := mkdir_ok fs fs0 service hmk
    obtain ⟨d1, h1, h2⟩ := createFirstTime_fresh J hJ fs fs0 service version now hmk
    have hl := findServiceFromFile_dir J (fs.set service d1) service d1 (FS.set_same _ _ _)
    refine ⟨fs.set service d1, d1.load J, ?_, hl, ?_⟩
    · simp only [StoreServiceHandler, readDir, hd, h1, RetrieveServiceHandler, hl]
    · rw [h2]
      simp [isDir, hd]

theorem mkdir_emptyFS_api : mkdir emptyFS "api" = Except.ok (emptyFS.set "api" []) :=
  mkdir_entryName emptyFS "api" (by decide) rfl

/-- C5: after a first deploy, for which `os.Mkdir` succeeds, and the later writes
`pre ++ e :: post`, where `e` is the most recent non-restart deploy and `post` holds
restarts only, the rollback version is the version that was current just before `e`: the
version of the last event of `pre`, or of the first deploy when `pre` is empty; the
current version is the one of the last event.  Restarts never change the rollback record:
after any writes `mid` followed by the restarts `post` it is what it was after `mid`,
while the current version is the one of the last restart; with restarts only after the
first deploy the rollback version is the version of the first deploy. -/
theorem deploySequence_rollback (J : Codec) (hJ : J.Lawful) (fs fs0 : FS)
    (serviceName version now : String) (pre : List Event) (e : Event) (post : List Event)
    (hmk : mkdir fs serviceName = Except.ok fs0) (he : e.restart = "")
    (hpost : ∀ p ∈ post, p.restart ≠ "") :
    (∃ s0 s1, stateAfter J fs serviceName version now pre = some s0 ∧
      stateAfter J fs serviceName version now (pre ++ e :: post) = some s1 ∧
      s0.Current.Version = (pre.map Event.version).getLastD version ∧
      s1.Rollback.Version = (pre.map Event.version).getLastD version ∧
      s1.Rollback.Version = s0.Current.Version ∧
      s1.Current.Version = (post.map Event.version).getLastD e.version) ∧
    (∀ mid : List Event, ∃ s0 s1,
      stateAfter J fs serviceName version now mid = some s0 ∧
      stateAfter J fs serviceName version now (mid ++ post) = some s1 ∧
      s1.Rollback = s0.Rollback ∧
      s1.Current.Version = (post.map Event.version).getLastD s0.Current.Version) ∧
    (∃ s1, stateAfter J fs serviceName version now post = some s1 ∧
      s1.Rollback.Version = version) := by
  have hroll : (runEvents (firstState version now) (pre ++ e :: post)).Rollback.Version =
      (runEvents (firstState version now) pre).Current.Version := by
    rw [runEvents_append, runEvents_cons, runEvents_restarts post _ hpost]
    simp [nextState, he]
  have hcur : (runEvents (firstState version now) pre).Current.Version =
      (pre.map Event.version).getLastD version := runEvents_current pre _
  refine ⟨⟨_, _, stateAfter_fresh J hJ fs fs0 serviceName version now pre hmk,
      stateAfter_fresh J hJ fs fs0 serviceName version now _ hmk, hcur, ?_, hroll, ?_⟩,
    fun mid => ⟨_, _, stateAfter_fresh J hJ fs fs0 serviceName version now mid hmk,
      stateAfter_fresh J hJ fs fs0 serviceName version now _ hmk, ?_, ?_⟩,
    ⟨_, stateAfter_fresh J hJ fs fs0 serviceName version now post hmk, ?_⟩⟩
  · rw [hroll, hcur]
  · rw [runEvents_append, runEvents_cons, runEvents_current]
    rfl
  · rw [runEvents_append, runEvents_restarts post _ hpost]
  · rw [runEvents_append, runEvents_current]
  · rw [runEvents_restarts post _ hpost]
    rfl

/-- The theorem of C5 on a first deploy of `1.0.0`, a deploy of `1.1.0`, a deploy of
`1.2.0` and a restart: the rollback version is `1.1.0`. -/
theorem deploySequence_rollback_witness :
    jsonCodec.Lawful ∧ mkdir emptyFS "api" = Except.ok (emptyFS.set "api" []) ∧
    (⟨"1.2.0", "", "01-02-2021:08:00:00"⟩ : Event).restart = "" ∧
    (∀ p ∈ [(⟨"1.2.0", "yes", "01-03-2021:08:00:00"⟩ : Event)], p.restart ≠ "") ∧
    ((∃ s0 s1, stateAfter jsonCodec emptyFS "api" "1.0.0" "12-30-2020:15:09:05"
        [⟨"1.1.0", "", "12-31-2020:08:00:00"⟩] = some s0 ∧
      stateAfter jsonCodec emptyFS "api" "1.0.0" "12-30-2020:15:09:05"
        ([⟨"1.1.0", "", "12-31-2020:08:00:00"⟩] ++ ⟨"1.2.0", "", "01-02-2021:08:00:00"⟩ ::
          [⟨"1.2.0", "yes", "01-03-2021:08:00:00"⟩]) = some s1 ∧
      s0.Current.Version = "1.1.0" ∧
      s1.Rollback.Version = "1.1.0" ∧
      s1.Rollback.Version = s0.Current.Version ∧
      s1.Current.Version = "1.2.0") ∧
    (∀ mid : List Event, ∃ s0 s1,
      stateAfter jsonCodec emptyFS "api" "1.0.0" "12-30-2020:15:09:05" mid = some s0 ∧
      stateAfter jsonCodec emptyFS "api" "1.0.0" "12-30-2020:15:09:05"
        (mid ++ [⟨"1.2.0", "yes", "01-03-2021:08:00:00"⟩]) = some s1 ∧
      s1.Rollback = s0.Rollback ∧
      s1.Current.Version = "1.2.0") ∧
    (∃ s1, stateAfter jsonCodec emptyFS "api" "1.0.0" "12-30-2020:15:09:05"
        [⟨"1.2.0", "yes", "01-03-2021:08:00:00"⟩] = some s1 ∧
      s1.Rollback.Version = "1.0.0")) :=
  ⟨jsonCodec_lawful, mkdir_emptyFS_api, rfl, by decide,
    deploySequence_rollback jsonCodec jsonCodec_lawful emptyFS (emptyFS.set "api" []) "api"
      "1.0.0" "12-30-2020:15:09:05" [⟨"1.1.0", "", "12-31-2020:08:00:00"⟩]
      ⟨"1.2.0", "", "01-02-2021:08:00:00"⟩ [⟨"1.2.0", "yes", "01-03-2021:08:00:00"⟩]
      mkdir_emptyFS_api rfl (by decide)⟩

/-- C6, as the claim states it, fails on a service without a directory: the store request
with the restart segment `true` goes through `createFirstTime`, and the deploy recorded as
current has `Restart = false`. -/
theorem StoreServiceHandler_restart_first :
    "true" ≠ "" ∧ emptyFS "api" = none ∧
    ∃ fs1 s, StoreServiceHandler jsonCodec emptyFS "api" "1.0.0" "true"
        "12-30-2020:15:09:05" = some (fs1, { status := 200, body := .service s }) ∧
      findServiceFromFile jsonCodec fs1 "api" = (s, none) ∧
      s.Current.Restart = false := by
  obtain ⟨fs1, s, h1, h2, h3⟩ := StoreServiceHandler_spec jsonCodec jsonCodec_lawful emptyFS
    "api" "1.0.0" "true" "12-30-2020:15:09:05" (Or.inr ⟨_, mkdir_emptyFS_api⟩)
  refine ⟨by decide, rfl, fs1, s, h1, h2, ?_⟩
  rw [h3]
  rfl

/-- C6, amended: a store request whose restart segment is not empty, on a service whose
directory exists or can be made by `os.Mkdir`, does not panic, answers 200 with the state
it then loads, and the deploy it records as current has `Restart = true` when the
directory existed before the request (`ReadDir` succeeded), and `Restart = false` when it
did not and the request went through `createFirstTime`. -/
theorem StoreServiceHandler_restart (J : Codec) (hJ : J.Lawful) (fs : FS)
    (service version restart now : String) (hr : restart ≠ "")
    (hok : (∃ d, fs service = some (.dir d)) ∨ ∃ fs0, mkdir fs service = Except.ok fs0) :
    ∃ fs1 s, StoreServiceHandler J fs service version restart now =
        some (fs1, { status := 200, body := .service s }) ∧
      findServiceFromFile J fs1 service = (s, none) ∧
      s.Current = { Date := now, Version := version, Restart := isDir fs service } := by
  obtain ⟨fs1, s, h1, h2, h3⟩ :=
    StoreServiceHandler_spec J hJ fs service version restart now hok
  refine ⟨fs1, s, h1, h2, ?_⟩
  have hlen : 0 < restart.length :=
    Nat.pos_of_ne_zero (fun h => hr ((length_eq_zero_iff restart).mp h))
  rw [h3]
  simp [hlen]

/-- The theorem of C6 on the sample service, with the restart segment `0`: the directory
exists and the deploy recorded has `Restart = true`. -/
theorem StoreServiceHandler_restart_witness :
    jsonCodec.Lawful ∧ "0" ≠ "" ∧
    ((∃ d, sampleFS "api" = some (.dir d)) ∨
      ∃ fs0, mkdir sampleFS "api" = Except.ok fs0) ∧
    ∃ fs1 s, StoreServiceHandler jsonCodec sampleFS "api" "1.0.0" "0"
        "12-31-2020:08:00:00" = some (fs1, { status := 200, body := .service s }) ∧
      findServiceFromFile jsonCodec fs1 "api" = (s, none) ∧
      s.Current = { Date := "12-31-2020:08:00:00", Version := "1.0.0", Restart := true } :=
  ⟨jsonCodec_lawful, by decide, Or.inl ⟨sampleDir, FS.set_same emptyFS "api" sampleDir⟩,
    StoreServiceHandler_restart jsonCodec jsonCodec_lawful sampleFS "api" "1.0.0" "0"
      "12-31-2020:08:00:00" (by decide)
      (Or.inl ⟨sampleDir, FS.set_same emptyFS "api" sampleDir⟩)⟩

/-- C8, as the claim states it, fails: in the directory `corruptDir` none of the three
files holds a document the decoder accepts, and `findServiceFromFile` returns the zero
response with a nil error. -/
theorem findServiceFromFile_corrupt :
    (jsonCodec.unmarshalDeploy (readFile corruptFS "api" "current").1).2 ≠ none ∧
    (jsonCodec.unmarshalRollback (readFile corruptFS "api" "rollback").1).2 ≠ none ∧
    (jsonCodec.unmarshalHistory (readFile corruptFS "api" "history").1).2 ≠ none ∧
    findServiceFromFile jsonCodec corruptFS "api" = (Response.zero, none) := by
  have hd : corruptFS "api" = some (.dir corruptDir) := FS.set_same emptyFS "api" corruptDir
  refine ⟨?_, ?_, ?_, ?_⟩
  · rw [readFile_dir corruptFS "api" "current" corruptDir hd]
    decide
  · rw [readFile_dir corruptFS "api" "rollback" corruptDir hd]
    decide
  · rw [readFile_dir corruptFS "api" "history" corruptDir hd]
    decide
  · rw [findServiceFromFile_dir jsonCodec corruptFS "api" corruptDir hd]
    decide

/-- C8, amended: loading an existing service directory returns a nil error whatever its
files hold; the errors of `json.Unmarshal` are dropped, and each record of the state
returned is what the decoder left in its zero-initialised variable for the file of that
name (the zero value when there is no such file). -/
theorem findServiceFromFile_no_error (J : Codec) (fs : FS) (serviceName : String) (d : Dir)
    (hd : fs serviceName = some (.dir d)) :
    (findServiceFromFile J fs serviceName).2 = none ∧
    (findServiceFromFile J fs serviceName).1 =
      { Current := (match d.find "current" with
          | some b => (J.unmarshalDeploy b).1
          | none => Deploy.zero)
        Rollback := (match d.find "rollback" with
          | some b => (J.unmarshalRollback b).1
          | none => Rollback.zero)
        History := (match d.find "history" with
          | some b => (J.unmarshalHistory b).1
          | none => []) } := by
  rw [findServiceFromFile_dir J fs serviceName d hd]
  exact ⟨rfl, rfl⟩

/-- The theorem of C8 on the corrupt directory. -/
theorem findServiceFromFile_no_error_witness :
    corruptFS "api" = some (.dir corruptDir) ∧
    (findServiceFromFile jsonCodec corruptFS "api").2 = none ∧
    (findServiceFromFile jsonCodec corruptFS "api").1 =
      { Current := (match corruptDir.find "current" with
          | some b => (jsonCodec.unmarshalDeploy b).1
          | none => Deploy.zero)
        Rollback := (match corruptDir.find "rollback" with
          | some b => (jsonCodec.unmarshalRollback b).1
          | none => Rollback.zero)
        History := (match corruptDir.find "history" with
          | some b => (jsonCodec.unmarshalHistory b).1
          | none => []) } :=
  ⟨FS.set_same emptyFS "api" corruptDir,
    findServiceFromFile_no_error jsonCodec corruptFS "api" corruptDir
      (FS.set_same emptyFS "api" corruptDir)⟩

namespace Raw

/-! ### Reading back what was written -/

theorem hexVal_hexDigit (n : Nat) (h : n < 16) : hexVal (hexDigit n) = some n := by
  interval_cases n <;> decide

theorem skipSpace_cons (c : Char) (cs : List Char) (h : isSpace c = false) :
    skipSpace (c :: cs) = c :: cs := by
  simp [skipSpace, h]

theorem parseStr_appendChar (c : GoChar) (fuel : Nat) (rest : List Char) :
    parseStr (fuel + 1) (appendChar c ++ rest) = consStr (toRune c) (parseStr fuel rest) := by
  cases c with
  | bad b =>
    simp [appendChar, parseStr, escapeSeq, getu4, hexVal, unicodeEscape, toRune]
  | rune c =>
    simp only [appendChar, toRune, appendRune]
    split_ifs with h1 h2 h3 h4 h5 h6 h7 h8 h9
    · rcases h1 with h | h <;> subst h <;> simp [parseStr, escapeSeq]
    · subst h2; simp [parseStr, escapeSeq]
    · subst h3; simp [parseStr, escapeSeq]
    · subst h4; simp [parseStr, escapeSeq]
    · subst h5; simp [parseStr, escapeSeq]
    · subst h6; simp [parseStr, escapeSeq]
    · have hn : c.toNat < 128 := by
        rcases h7 with h | h | h | h
        · omega
        · subst h; decide
        · subst h; decide
        · subst h; decide
      have e1 := hexVal_hexDigit (c.toNat / 16) (by omega)
      have e2 := hexVal_hexDigit (c.toNat % 16) (by omega)
      have e0 : hexVal '0' = some 0 := by decide
      have hs : ¬ (0xD800 ≤ c.toNat ∧ c.toNat < 0xE000) := by omega
      have hv2 : c.toNat / 16 * 16 + c.toNat % 16 = c.toNat := by omega
      simp [parseStr, escapeSeq, getu4, unicodeEscape, e0, e1, e2]
      rw [hv2, if_neg hs]
      simp
    · subst h8; simp [parseStr, escapeSeq, getu4, hexVal, unicodeEscape]
    · subst h9; simp [parseStr, escapeSeq, getu4, hexVal, unicodeEscape]
    · push_neg at h1 h7
      simp [parseStr, h1.1, h1.2, Nat.not_lt.mpr h7.1]

theorem parseStr_appendString (s : GoString) (tail : List Char) :
    ∀ fuel, (appendString s).length < fuel →
      parseStr fuel (appendString s ++ Char.ofNat 34 :: tail) = some (s.map toRune, tail) := by
  induction s with
  | nil =>
    intro fuel hf
    obtain ⟨k, rfl⟩ : ∃ k, fuel = k + 1 := ⟨fuel - 1, by omega⟩
    simp [appendString, parseStr]
  | cons c cs ih =>
    intro fuel hf
    have hpos : 1 ≤ (appendChar c).length := by
      cases c with
      | bad b => simp [appendChar]
      | rune c =>
        simp only [appendChar, appendRune]
        split_ifs <;> simp
    simp only [appendString, List.length_append] at hf
    obtain ⟨k, rfl⟩ : ∃ k, fuel = k + 1 := ⟨fuel - 1, by omega⟩
    simp only [appendString, List.append_assoc]
    rw [parseStr_appendChar, ih k (by omega)]
    rfl

theorem parseValue_string (s : GoString) (tail : List Char) (fuel depth : Nat) :
    parseValue (fuel + 1) depth (writeString s tail) = some (.str (s.map toRune), tail) := by
  simp [parseValue, writeString, skipSpace, isSpace]
  rw [parseStr_appendString s tail _ (by omega)]

theorem parseValue_bool (b : Bool) (tail : List Char) (fuel depth : Nat) :
    parseValue (fuel + 1) depth (boolText b ++ tail) = some (.bool b, tail) := by
  cases b <;> simp [parseValue, boolText, skipSpace, isSpace, expectLit]

theorem plainKey_of (key : List Char) (h : appendString (ofText key) = key) : PlainKey key := by
  intro fuel r hf
  have h2 := parseStr_appendString (ofText key) r fuel (by rw [h]; exact hf)
  rw [h] at h2
  rw [h2]
  simp [ofText, toRune, Function.comp_def]

theorem plainKey_date : PlainKey "date".data := plainKey_of _ (by decide)

theorem plainKey_version : PlainKey "version".data := plainKey_of _ (by decide)

theorem plainKey_restart : PlainKey "restart".data := plainKey_of _ (by decide)

theorem parseMembers_comma (pv : List Char → Option (JV × List Char)) (fuel : Nat)
    (key : List Char) (hk : PlainKey key) (v : JV) (r2 r4 : List Char)
    (hpv : pv r2 = some (v, ',' :: r4)) :
    parseMembers pv (fuel + 1) (Char.ofNat 34 :: (key ++ Char.ofNat 34 :: ':' :: r2)) =
      match parseMembers pv fuel r4 with
      | none => none
      | some (ms, r5) => some ((key, v) :: ms, r5) := by
  simp [parseMembers, skipSpace, isSpace]
  rw [hk _ (':' :: r2) (by omega)]
  simp [skipSpace, isSpace, hpv]

theorem parseMembers_last (pv : List Char → Option (JV × List Char)) (fuel : Nat)
    (key : List Char) (hk : PlainKey key) (v : JV) (r2 r4 : List Char)
    (hpv : pv r2 = some (v, Char.ofNat 125 :: r4)) :
    parseMembers pv (fuel + 1) (Char.ofNat 34 :: (key ++ Char.ofNat 34 :: ':' :: r2)) =
      some ([(key, v)], r4) := by
  simp [parseMembers, skipSpace, isSpace]
  rw [hk _ (':' :: r2) (by omega)]
  simp [skipSpace, isSpace, hpv]

theorem writeDeploy_eq (d : Deploy) (tail : List Char) :
    writeDeploy d tail = Char.ofNat 123 :: Char.ofNat 34 :: deployRest d tail := rfl

theorem parseMembers_deploy (d : Deploy) (tail : List Char) (fuel depth m : Nat) :
    parseMembers (parseValue (fuel + 1) depth) (m + 3) (Char.ofNat 34 :: deployRest d tail) =
      some ([("date".data, .str (d.Date.map toRune)),
        ("version".data, .str (d.Version.map toRune)),
        ("restart".data, .bool d.Restart)], tail) := by
  unfold deployRest
  rw [parseMembers_comma _ (m + 2) _ plainKey_date _ _ _ (parseValue_string _ _ _ _),
    parseMembers_comma _ (m + 1) _ plainKey_version _ _ _ (parseValue_string _ _ _ _),
    parseMembers_last _ m _ plainKey_restart _ _ _ (parseValue_bool _ _ _ _)]

theorem parseValue_object (fuel depth : Nat) (c2 : Char) (rest2 : List Char)
    (hsp : isSpace c2 = false) (hc2 : c2 ≠ Char.ofNat 125)
    (hdepth : depth + 1 ≤ maxNestingDepth) :
    parseValue (fuel + 1) depth (Char.ofNat 123 :: c2 :: rest2) =
      match parseMembers (parseValue fuel (depth + 1)) ((c2 :: rest2).length + 1)
          (c2 :: rest2) with
      | none => none
      | some (ms, r) => some (.obj ms, r) := by
  have hd : ¬ maxNestingDepth < depth + 1 := by omega
  have h123 : isSpace (Char.ofNat 123) = false := by decide
  rw [parseValue]
  simp [skipSpace, hsp, h123, hc2, hd]

theorem parseValue_array (fuel depth : Nat) (c2 : Char) (rest2 : List Char)
    (hsp : isSpace c2 = false) (hc2 : c2 ≠ ']')
    (hdepth : depth + 1 ≤ maxNestingDepth) :
    parseValue (fuel + 1) depth ('[' :: c2 :: rest2) =
      match parseElems (parseValue fuel (depth + 1)) ((c2 :: rest2).length + 1)
          (c2 :: rest2) with
      | none => none
      | some (vs, r) => some (.arr vs, r) := by
  have hd : ¬ maxNestingDepth < depth + 1 := by omega
  have h91 : isSpace '[' = false := by decide
  rw [parseValue]
  simp [skipSpace, hsp, h91, hc2, hd]

theorem parseValue_deploy (d : Deploy) (tail : List Char) (fuel depth : Nat)
    (hdepth : depth + 1 ≤ maxNestingDepth) :
    parseValue (fuel + 2) depth (writeDeploy d tail) = some (deployDoc d, tail) := by
  obtain ⟨m, hm⟩ : ∃ m, (deployRest d tail).length = m + 1 :=
    ⟨(deployRest d tail).length - 1, by simp [deployRest]⟩
  rw [writeDeploy_eq, parseValue_object (fuel + 1) depth _ _ (by decide) (by decide) hdepth,
    List.length_cons, hm, parseMembers_deploy d tail fuel (depth + 1) m]
  rfl

theorem parseValue_rollback (r : Rollback) (tail : List Char) (fuel depth : Nat)
    (hdepth : depth + 1 ≤ maxNestingDepth) :
    parseValue (fuel + 2) depth (writeRollback r tail) = some (rollbackDoc r, tail) := by
  have e : writeRollback r tail = Char.ofNat 123 :: Char.ofNat 34 :: ("version".data ++
      Char.ofNat 34 :: ':' :: writeString r.Version (Char.ofNat 125 :: tail)) := rfl
  rw [e, parseValue_object (fuel + 1) depth _ _ (by decide) (by decide) hdepth,
    parseMembers_last _ _ _ plainKey_version _ _ _ (parseValue_string _ _ _ _)]
  rfl

theorem writeDeploy_head (d : Deploy) (tail : List Char) :
    ∃ t, writeDeploy d tail = Char.ofNat 123 :: t := ⟨_, writeDeploy_eq d tail⟩

theorem length_writeRest_raw (ds : List Deploy) (tail : List Char) :
    ds.length < (writeRest ds tail).length := by
  induction ds with
  | nil => simp [writeRest]
  | cons d ds ih =>
    simp only [writeRest, writeDeploy_eq, List.length_cons]
    have : (writeRest ds tail).length ≤ (deployRest d (writeRest ds tail)).length := by
      simp [deployRest, writeString]
      omega
    omega

theorem parseElems_writeRest (fuel depth : Nat) (hdepth : depth + 1 ≤ maxNestingDepth)
    (ds : List Deploy) (tail : List Char) :
    ∀ (d : Deploy) (k : Nat), ds.length < k →
      parseElems (parseValue (fuel + 2) depth) k (writeDeploy d (writeRest ds tail)) =
        some (deployDoc d :: ds.map deployDoc, tail) := by
  induction ds with
  | nil =>
    intro d k hk
    obtain ⟨k, rfl⟩ : ∃ j, k = j + 1 := ⟨k - 1, by simp at hk; omega⟩
    rw [parseElems, parseValue_deploy d _ fuel depth hdepth]
    simp [writeRest, skipSpace, isSpace]
  | cons d2 ds ih =>
    intro d k hk
    obtain ⟨k, rfl⟩ : ∃ j, k = j + 1 := ⟨k - 1, by simp at hk; omega⟩
    have hk2 : ds.length < k := by simp at hk; omega
    rw [parseElems, parseValue_deploy d _ fuel depth hdepth]
    have hsp : skipSpace (writeRest (d2 :: ds) tail) =
        ',' :: writeDeploy d2 (writeRest ds tail) := skipSpace_cons _ _ (by decide)
    simp only [hsp, ih d2 k hk2]
    simp

theorem parseDoc_deploy (d : Deploy) : parseDoc (writeDeploy d []) = some (deployDoc d) := by
  obtain ⟨m, hm⟩ : ∃ m, (writeDeploy d []).length + 1 = m + 2 :=
    ⟨(writeDeploy d []).length - 1, by rw [writeDeploy_eq]; simp⟩
  rw [parseDoc, hm, parseValue_deploy d [] m 0 (by decide)]
  rfl

theorem parseDoc_rollback (r : Rollback) :
    parseDoc (writeRollback r []) = some (rollbackDoc r) := by
  obtain ⟨m, hm⟩ : ∃ m, (writeRollback r []).length + 1 = m + 2 :=
    ⟨(writeRollback r []).length - 1, by simp [writeRollback]⟩
  rw [parseDoc, hm, parseValue_rollback r [] m 0 (by decide)]
  rfl

theorem parseDoc_history (h : List Deploy) :
    parseDoc (writeHistory h []) = some (historyDoc h) := by
  cases h with
  | nil =>
    simp [parseDoc, writeHistory, parseValue, skipSpace, isSpace, expectLit, historyDoc]
  | cons d ds =>
    obtain ⟨t, ht⟩ := writeDeploy_head d (writeRest ds [])
    have hlen := length_writeRest_raw ds []
    have hl2 : 3 ≤ t.length := by
      have := congrArg List.length ht
      rw [writeDeploy_eq] at this
      simp [deployRest] at this
      omega
    obtain ⟨m, hm⟩ : ∃ m, (writeHistory (d :: ds) []).length + 1 = m + 2 + 1 :=
      ⟨(writeHistory (d :: ds) []).length - 2, by
        simp only [writeHistory, ht, List.length_cons]; omega⟩
    have hk : ds.length < (Char.ofNat 123 :: t).length + 1 := by
      have := congrArg List.length ht
      rw [writeDeploy_eq] at this
      simp only [List.length_cons] at this ⊢
      have h3 : (writeRest ds []).length ≤ (deployRest d (writeRest ds [])).length := by
        simp [deployRest, writeString]
        omega
      omega
    rw [parseDoc, hm]
    simp only [writeHistory, ht]
    rw [parseValue_array (m + 2) 0 (Char.ofNat 123) t (by decide) (by decide) (by decide),
      ← ht, parseElems_writeRest m 1 (by decide) ds [] d _ (by rw [ht]; exact hk)]
    rfl

theorem fieldOf_date : fieldOf "date".data = some Field.date := by decide

theorem fieldOf_version : fieldOf "version".data = some Field.version := by decide

theorem fieldOf_restart : fieldOf "restart".data = some Field.restart := by decide

theorem decodeDeploy_deployDoc (d : Deploy) : decodeDeploy (deployDoc d) = (d.toValid, none) := by
  simp only [decodeDeploy, deployDoc, List.foldl_cons, List.foldl_nil, setField, fieldOf_date,
    fieldOf_version, fieldOf_restart, storeString, storeBool]
  rfl

theorem decodeRollback_rollbackDoc (r : Rollback) :
    decodeRollback (rollbackDoc r) = (r.toValid, none) := by
  have h : foldEq "version".data "version".data = true := by decide
  simp only [decodeRollback, rollbackDoc, List.foldl_cons, List.foldl_nil, setVersion, h,
    storeString]
  rfl

theorem decodeHistory_fold (vs : List Deploy) : ∀ acc : List Deploy,
    (vs.map deployDoc).foldl (fun (acc : List Deploy × Option GoError) e =>
      (acc.1 ++ [(decodeDeploy e).1],
        match acc.2 with
        | some x => some x
        | none => (decodeDeploy e).2)) (acc, none) =
      (acc ++ vs.map Deploy.toValid, none) := by
  induction vs with
  | nil => intro acc; simp
  | cons d ds ih =>
    intro acc
    simp only [List.map_cons, List.foldl_cons, decodeDeploy_deployDoc]
    rw [ih]
    simp

theorem decodeHistory_historyDoc (h : List Deploy) :
    decodeHistory (historyDoc h) = (h.map Deploy.toValid, none) := by
  cases h with
  | nil => rfl
  | cons d ds =>
    have := decodeHistory_fold (d :: ds) []
    simpa [decodeHistory, historyDoc] using this

/-- What `Unmarshal` reads back from what `Marshal` wrote: the record with its strings
coerced to valid UTF-8. -/
theorem unmarshalDeploy_marshalDeploy (d : Deploy) :
    unmarshalDeploy (marshalDeploy d) = (d.toValid, none) := by
  simp only [unmarshalDeploy, marshalDeploy, parseDoc_deploy, decodeDeploy_deployDoc]

theorem unmarshalRollback_marshalRollback (r : Rollback) :
    unmarshalRollback (marshalRollback r) = (r.toValid, none) := by
  simp only [unmarshalRollback, marshalRollback, parseDoc_rollback, decodeRollback_rollbackDoc]

theorem unmarshalHistory_marshalHistory (h : List Deploy) :
    unmarshalHistory (marshalHistory h) = (h.map Deploy.toValid, none) := by
  simp only [unmarshalHistory, marshalHistory, parseDoc_history, decodeHistory_historyDoc]

theorem toValid_of_isValid (s : GoString) (h : isValid s = true) : toValid s = s := by
  induction s with
  | nil => rfl
  | cons c cs ih =>
    cases c with
    | rune c =>
      simp only [isValid, List.all_cons, Bool.true_and] at h
      have := ih h
      simp only [toValid, ofText, List.map_cons, List.map_map] at this ⊢
      rw [this]
      rfl
    | bad b => simp [isValid] at h

theorem Deploy.toValid_eq_self (d : Deploy) (h : d.isValid = true) : d.toValid = d := by
  simp only [Deploy.isValid, Bool.and_eq_true] at h
  simp only [Deploy.toValid, Raw.toValid_of_isValid _ h.1, Raw.toValid_of_isValid _ h.2]

theorem isValid_ofText (s : List Char) : isValid (ofText s) = true := by
  induction s with
  | nil => rfl
  | cons c cs ih =>
    simp only [ofText, List.map_cons, isValid, List.all_cons, Bool.true_and]
    exact ih


theorem swap_eq_raw (l : List Deploy) (i j : Nat) (hi : i < l.length) (hj : j < l.length) :
    swap l (i : Int) (j : Int) = some ((l.set i l[j]).set j l[i]) := by
  unfold swap
  have h0 : (0 : Int) ≤ (i : Int) ∧ (0 : Int) ≤ (j : Int) := ⟨by omega, by omega⟩
  rw [if_pos h0]
  simp only [Int.toNat_ofNat]
  rw [List.getElem?_eq_getElem hi, List.getElem?_eq_getElem hj]

theorem reverseLoop_spec_raw (n : Nat) : ∀ (l : List Deploy) (i j : Nat), j < i + n →
    (i < j → j < l.length) →
    ∃ r, reverseLoop l (i : Int) (j : Int) = some r ∧ r.length = l.length ∧
      ∀ p, r[p]? = if i ≤ p ∧ p ≤ j then l[i + j - p]? else l[p]? := by
  induction n with
  | zero =>
    intro l i j hn _
    refine ⟨l, ?_, rfl, ?_⟩
    · rw [reverseLoop, if_neg (by omega)]
    · intro p
      rw [if_neg (by omega)]
  | succ n ih =>
    intro l i j hn hlen
    by_cases hij : i < j
    · have hj := hlen hij
      have hi : i < l.length := by omega
      rw [reverseLoop, if_pos (by omega), swap_eq_raw l i j hi hj]
      simp only
      have e1 : (i : Int) + 1 = ((i + 1 : Nat) : Int) := by omega
      have e2 : (j : Int) - 1 = ((j - 1 : Nat) : Int) := by omega
      rw [e1, e2]
      obtain ⟨r, hr, hlr, hp⟩ := ih ((l.set i l[j]).set j l[i]) (i + 1) (j - 1) (by omega)
        (by intro _; simp only [List.length_set]; omega)
      refine ⟨r, hr, by simpa using hlr, ?_⟩
      intro p
      rw [hp]
      simp only [List.getElem?_set, List.length_set]
      have hjj : l[j]? = some l[j] := List.getElem?_eq_getElem hj
      have hii : l[i]? = some l[i] := List.getElem?_eq_getElem hi
      split_ifs <;> first
        | omega
        | rfl
        | (rw [← hjj]; congr 1; omega)
        | (rw [← hii]; congr 1; omega)
        | (congr 1; omega)
    · refine ⟨l, ?_, rfl, ?_⟩
      · rw [reverseLoop, if_neg (by omega)]
      · intro p
        by_cases h1 : i ≤ p ∧ p ≤ j
        · rw [if_pos h1]
          congr 1
          omega
        · rw [if_neg h1]

/-- The swap loop never panics and computes the reversal of the list. -/
theorem reverse_eq_raw (l : List Deploy) : reverse l = some l.reverse := by
  unfold reverse
  cases hl : l with
  | nil =>
    rw [reverseLoop, if_neg (by simp)]
    rfl
  | cons a t =>
    obtain ⟨r, hr, hlr, hp⟩ := reverseLoop_spec_raw (a :: t).length (a :: t) 0 ((a :: t).length - 1)
      (by simp) (by intro _; simp)
    have e : (((a :: t).length : Int) - 1) = (((a :: t).length - 1 : Nat) : Int) := by
      simp
    rw [e]
    simp only [Nat.cast_zero] at hr
    rw [hr]
    congr 1
    apply List.ext_getElem?
    intro p
    rw [hp]
    by_cases h : p < (a :: t).length
    · rw [if_pos (by omega), List.getElem?_reverse h]
      congr 1
      omega
    · rw [if_neg (by omega), List.getElem?_eq_none (by omega),
        List.getElem?_eq_none (by simp only [List.length_reverse]; omega)]

theorem foldl_loadEntry_raw (fs : FS) (serviceName : String) (names : List String) :
    ∀ init : Response, names.foldl (loadEntry fs serviceName) init =
      { Current := if "current" ∈ names
          then (unmarshalDeploy (readFile fs serviceName "current").1).1 else init.Current
        Rollback := if "rollback" ∈ names
          then (unmarshalRollback (readFile fs serviceName "rollback").1).1 else init.Rollback
        History := if "history" ∈ names
          then (unmarshalHistory (readFile fs serviceName "history").1).1 else init.History } := by
  induction names with
  | nil => intro init; simp
  | cons a rest ih =>
    intro init
    rw [List.foldl_cons, ih]
    by_cases h1 : a = "current"
    · subst h1
      simp [loadEntry]
    · by_cases h2 : a = "rollback"
      · subst h2
        simp [loadEntry]
      · by_cases h3 : a = "history"
        · subst h3
          simp [loadEntry]
        · have n1 : ¬ "current" = a := fun h => h1 h.symm
          have n2 : ¬ "rollback" = a := fun h => h2 h.symm
          have n3 : ¬ "history" = a := fun h => h3 h.symm
          simp [loadEntry, h1, h2, h3, n1, n2, n3]

/-- Loading an existing directory never fails, and returns `load` of it. -/
theorem findServiceFromFile_dir_raw (fs : FS) (serviceName : String) (d : Dir)
    (hd : fs serviceName = some (.dir d)) :
    findServiceFromFile fs serviceName = (load d, none) := by
  unfold findServiceFromFile readDir
  rw [hd]
  simp only [foldl_loadEntry_raw, load, readFile, hd, Response.zero]
  have key : ∀ file : String, file ∈ d.names ↔ ¬ (d.find file = none) := by
    intro file
    rw [Dir.find_eq_none]
    simp
  simp only [key]
  cases d.find "current" <;> cases d.find "rollback" <;> cases d.find "history" <;> simp

theorem load_put_current_raw (d : Dir) (c : Deploy) :
    load (d.put "current" (marshalDeploy c)) = { load d with Current := c.toValid } := by
  simp only [load, Dir.find_put_same, unmarshalDeploy_marshalDeploy]
  rw [Dir.find_put_other d "current" "rollback" _ (by decide),
    Dir.find_put_other d "current" "history" _ (by decide)]

theorem load_put_rollback_raw (d : Dir) (r : Rollback) :
    load (d.put "rollback" (marshalRollback r)) = { load d with Rollback := r.toValid } := by
  simp only [load, Dir.find_put_same, unmarshalRollback_marshalRollback]
  rw [Dir.find_put_other d "rollback" "current" _ (by decide),
    Dir.find_put_other d "rollback" "history" _ (by decide)]

theorem load_put_history_raw (d : Dir) (h : List Deploy) :
    load (d.put "history" (marshalHistory h)) =
      { load d with History := h.map Deploy.toValid } := by
  simp only [load, Dir.find_put_same, unmarshalHistory_marshalHistory]
  rw [Dir.find_put_other d "history" "current" _ (by decide),
    Dir.find_put_other d "history" "rollback" _ (by decide)]

theorem load_current_raw (d : Dir) :
    (unmarshalDeploy ((d.find "current").getD "")).1 = (load d).Current := by
  simp only [load]
  cases d.find "current" with
  | none => decide
  | some b => rfl

theorem load_history_raw (d : Dir) :
    (unmarshalHistory ((d.find "history").getD "")).1 = (load d).History := by
  simp only [load]
  cases d.find "history" with
  | none => decide
  | some b => rfl

/-- The three writes of `writeRecords`, on an existing directory: what is loaded afterwards
is the state with its strings coerced to valid UTF-8. -/
theorem writeRecords_dir_raw (fs : FS) (serviceName : String) (d : Dir) (s : Response)
    (hd : fs serviceName = some (.dir d)) :
    ∃ d1, writeRecords fs serviceName s = fs.set serviceName d1 ∧ load d1 = s.toValid := by
  refine ⟨((d.put "current" (marshalDeploy s.Current)).put "rollback"
    (marshalRollback s.Rollback)).put "history" (marshalHistory s.History), ?_, ?_⟩
  · unfold writeRecords
    simp only
    rw [writeFile_dir fs serviceName _ _ d hd, writeFile_set, writeFile_set]
  · rw [load_put_history_raw, load_put_rollback_raw, load_put_current_raw]
    rfl

/-! ### What is read from a file is valid UTF-8 -/

theorem storeString_isValid (v : JV) (old : GoString) (saved : Option GoError)
    (h : isValid old = true) : isValid (storeString v old saved).1 = true := by
  cases v <;> simp [storeString, isValid_ofText, h]

theorem setField_isValid (acc : Deploy × Option GoError) (key : List Char) (v : JV)
    (h : acc.1.isValid = true) : (setField acc key v).1.isValid = true := by
  simp only [Deploy.isValid, Bool.and_eq_true] at h
  unfold setField
  split
  · simp [Deploy.isValid, h.1, h.2]
  · simp [Deploy.isValid, h.2, storeString_isValid _ _ _ h.1]
  · simp [Deploy.isValid, h.1, storeString_isValid _ _ _ h.2]
  · simp [Deploy.isValid, h.1, h.2]

theorem foldl_setField_isValid (ms : List (List Char × JV)) :
    ∀ acc : Deploy × Option GoError, acc.1.isValid = true →
      (ms.foldl (fun acc m => setField acc m.1 m.2) acc).1.isValid = true := by
  induction ms with
  | nil => intro acc h; exact h
  | cons m ms ih =>
    intro acc h
    rw [List.foldl_cons]
    exact ih _ (setField_isValid acc m.1 m.2 h)

theorem decodeDeploy_isValid (v : JV) : (decodeDeploy v).1.isValid = true := by
  cases v with
  | obj ms => exact foldl_setField_isValid ms _ rfl
  | _ => rfl

theorem unmarshalDeploy_isValid (b : String) : (unmarshalDeploy b).1.isValid = true := by
  unfold unmarshalDeploy
  split
  · rfl
  · exact decodeDeploy_isValid _

theorem decodeHistory_all_isValid (v : JV) :
    (decodeHistory v).1.all Deploy.isValid = true := by
  cases v with
  | arr vs =>
    have key : ∀ (l : List JV) (acc : List Deploy × Option GoError),
        acc.1.all Deploy.isValid = true →
        (l.foldl (fun (acc : List Deploy × Option GoError) e =>
          (acc.1 ++ [(decodeDeploy e).1],
            match acc.2 with
            | some x => some x
            | none => (decodeDeploy e).2)) acc).1.all Deploy.isValid = true := by
      intro l
      induction l with
      | nil => intro acc h; exact h
      | cons e l ih =>
        intro acc h
        rw [List.foldl_cons]
        apply ih
        simp only [List.all_append, h, List.all_cons, decodeDeploy_isValid, List.all_nil,
          Bool.and_self]
    exact key vs _ rfl
  | _ => rfl

theorem unmarshalHistory_all_isValid (b : String) :
    (unmarshalHistory b).1.all Deploy.isValid = true := by
  unfold unmarshalHistory
  split
  · rfl
  · exact decodeHistory_all_isValid _

theorem map_toValid_of_all_isValid (h : List Deploy) (hv : h.all Deploy.isValid = true) :
    h.map Deploy.toValid = h := by
  induction h with
  | nil => rfl
  | cons d ds ih =>
    simp only [List.all_cons, Bool.and_eq_true] at hv
    rw [List.map_cons, Deploy.toValid_eq_self d hv.1, ih hv.2]

theorem load_current_isValid (d : Dir) : (load d).Current.isValid = true := by
  simp only [load]
  cases d.find "current" with
  | none => rfl
  | some b => exact unmarshalDeploy_isValid b

theorem load_history_isValid (d : Dir) : (load d).History.all Deploy.isValid = true := by
  simp only [load]
  cases d.find "history" with
  | none => rfl
  | some b => exact unmarshalHistory_all_isValid b

theorem Response.toValid_eq_self_of_isValid (s : Response) (h : s.isValid = true) : s.toValid = s := by
  simp only [Response.isValid, Bool.and_eq_true] at h
  obtain ⟨⟨h1, h2⟩, h3⟩ := h
  have e2 : s.Rollback.toValid = s.Rollback := by
    simp only [Rollback.toValid, Rollback.isValid] at h2 ⊢
    rw [Raw.toValid_of_isValid _ h2]
  simp only [Response.toValid, Deploy.toValid_eq_self _ h1, e2,
    map_toValid_of_all_isValid _ h3]

/-! ### The write path -/

/-- The state a later write leaves, from the state the directory held. -/
theorem addDeployVersion_dir_raw (fs : FS) (serviceName : String) (version restart now : GoString)
    (d : Dir) (hd : fs serviceName = some (.dir d)) :
    ∃ d1, addDeployVersion fs serviceName version restart now = some (fs.set serviceName d1) ∧
      load d1 =
        { Current :=
            Deploy.toValid
              { Version := version, Date := now, Restart := decide (restart.length > 0) }
          Rollback :=
            if restart.length = 0 then { Version := (load d).Current.Version }
            else (load d).Rollback
          History :=
            Deploy.toValid
              { Version := version, Date := now, Restart := decide (restart.length > 0) } ::
              (load d).History } := by
  have hcv : toValid (load d).Current.Version = (load d).Current.Version := by
    have h := load_current_isValid d
    simp only [Deploy.isValid, Bool.and_eq_true] at h
    exact toValid_of_isValid _ h.2
  have hhv := map_toValid_of_all_isValid _ (load_history_isValid d)
  unfold addDeployVersion
  simp only
  by_cases hr : restart.length = 0
  · rw [if_pos hr, readFile_dir fs serviceName "current" d hd, load_current_raw,
      writeFile_dir fs serviceName _ _ d hd, writeFile_set, readFile_set,
      Dir.find_put_other _ "current" "history" _ (by decide),
      Dir.find_put_other _ "rollback" "history" _ (by decide), load_history_raw, reverse_eq_raw]
    simp only
    rw [reverse_eq_raw]
    simp only
    rw [writeFile_set]
    refine ⟨_, rfl, ?_⟩
    rw [load_put_history_raw, load_put_current_raw, load_put_rollback_raw]
    simp [hr, Rollback.toValid, hcv, hhv]
  · rw [if_neg hr, writeFile_dir fs serviceName _ _ d hd, readFile_set,
      Dir.find_put_other _ "current" "history" _ (by decide), load_history_raw, reverse_eq_raw]
    simp only
    rw [reverse_eq_raw]
    simp only
    rw [writeFile_set]
    refine ⟨_, rfl, ?_⟩
    rw [load_put_history_raw, load_put_current_raw]
    simp [hr, hhv]

/-- When `os.Mkdir` succeeds `createFirstTime` does not panic, and what is loaded
afterwards is the first state with its strings coerced to valid UTF-8. -/
theorem createFirstTime_fresh_raw (fs fs0 : FS) (serviceName : String) (version now : GoString)
    (hmk : mkdir fs serviceName = Except.ok fs0) :
    ∃ d1, createFirstTime fs serviceName version now = some (fs.set serviceName d1) ∧
      load d1 =
        Response.toValid
          { Current := { Version := version, Date := now, Restart := false }
            Rollback := { Version := version }
            History := [{ Version := version, Date := now, Restart := false }] } := by
  obtain ⟨_, hfs0⟩ := mkdir_ok fs fs0 serviceName hmk
  unfold createFirstTime
  rw [hmk]
  simp only
  subst hfs0
  obtain ⟨d1, h1, h2⟩ := writeRecords_dir_raw (fs.set serviceName []) serviceName []
    { Current := { Version := version, Date := now, Restart := false }
      Rollback := { Version := version }
      History := [{ Version := version, Date := now, Restart := false }] }
    (FS.set_same fs serviceName [])
  refine ⟨d1, ?_, h2⟩
  rw [h1, FS.set_set]

/-! ### Round trip -/

/-- C9, as the claim states it, fails on a state that holds a byte that is not valid
UTF-8: `json.Marshal` writes it as `\ufffd`, and what is loaded holds U+FFFD in its place.
So it is for the three records written into the sample directory, and for the state
`createFirstTime` computes for the version `%FF` in an empty working directory. -/
theorem roundTrip_invalid :
    sampleFS "api" = some (.dir sampleDir) ∧
    findServiceFromFile (writeRecords sampleFS "api" stateFF) "api" =
      (stateFF.toValid, none) ∧
    stateFF.toValid ≠ stateFF ∧
    stateFF.toValid.Current.Version = [GoChar.rune (Char.ofNat 0xFFFD)] ∧
    ∃ fs1, createFirstTime emptyFS "api" versionFF (text "12-30-2020:15:09:05") = some fs1 ∧
      (findServiceFromFile fs1 "api").1.Current.Version = [GoChar.rune (Char.ofNat 0xFFFD)] ∧
      (findServiceFromFile fs1 "api").1.Current.Version ≠ versionFF := by
  have hd : sampleFS "api" = some (.dir sampleDir) := FS.set_same emptyFS "api" sampleDir
  obtain ⟨d1, h1, h2⟩ := writeRecords_dir_raw sampleFS "api" sampleDir stateFF hd
  obtain ⟨d2, h3, h4⟩ := createFirstTime_fresh_raw emptyFS _ "api" versionFF
    (text "12-30-2020:15:09:05") mkdir_emptyFS_api
  refine ⟨hd, ?_, by decide, rfl, _, h3, ?_, ?_⟩
  · rw [h1, findServiceFromFile_dir_raw _ "api" d1 (FS.set_same _ _ _), h2]
  · rw [findServiceFromFile_dir_raw _ "api" d2 (FS.set_same _ _ _), h4]
    rfl
  · rw [findServiceFromFile_dir_raw _ "api" d2 (FS.set_same _ _ _), h4]
    decide

/-- C9, amended: round trip for the states whose strings are valid UTF-8.  Writing the
three records of such a state into an existing service directory and loading them with
`findServiceFromFile` returns that state; for a version and a date that are valid UTF-8
the state loaded after `createFirstTime`, when `os.Mkdir` succeeds, is the one it
computed, and the state loaded after `addDeployVersion` holds the records it computed from
the files (the rollback record it did not write on a restart being the one that was
there). -/
theorem roundTrip (fs fs0 fs2 : FS) (serviceName : String) (version restart now : GoString)
    (d : Dir) (s : Response) (hd : fs serviceName = some (.dir d))
    (hmk : mkdir fs0 serviceName = Except.ok fs2) (hs : s.isValid = true)
    (hv : isValid version = true) (hn : isValid now = true) :
    findServiceFromFile (writeRecords fs serviceName s) serviceName = (s, none) ∧
    (∃ fs1, createFirstTime fs0 serviceName version now = some fs1 ∧
      findServiceFromFile fs1 serviceName =
        ({ Current := { Version := version, Date := now, Restart := false }
           Rollback := { Version := version }
           History := [{ Version := version, Date := now, Restart := false }] }, none)) ∧
    (∃ fs1, addDeployVersion fs serviceName version restart now = some fs1 ∧
      findServiceFromFile fs1 serviceName =
        ({ Current :=
             { Version := version, Date := now, Restart := decide (restart.length > 0) }
           Rollback :=
             if restart.length = 0 then
               { Version := (unmarshalDeploy (readFile fs serviceName "current").1).1.Version }
             else (findServiceFromFile fs serviceName).1.Rollback
           History :=
             { Version := version, Date := now, Restart := decide (restart.length > 0) } ::
               (unmarshalHistory (readFile fs serviceName "history").1).1 }, none)) := by
  have hdep : ∀ b : Bool, Deploy.toValid { Version := version, Date := now, Restart := b } =
      { Version := version, Date := now, Restart := b } := fun b =>
    Deploy.toValid_eq_self _ (by simp [Deploy.isValid, hv, hn])
  refine ⟨?_, ?_, ?_⟩
  · obtain ⟨d1, h1, h2⟩ := writeRecords_dir_raw fs serviceName d s hd
    rw [h1, findServiceFromFile_dir_raw _ serviceName d1 (FS.set_same _ _ _), h2,
      Response.toValid_eq_self_of_isValid s hs]
  · obtain ⟨d1, h1, h2⟩ := createFirstTime_fresh_raw fs0 fs2 serviceName version now hmk
    refine ⟨_, h1, ?_⟩
    rw [findServiceFromFile_dir_raw _ serviceName d1 (FS.set_same _ _ _), h2]
    simp [Response.toValid, hdep, Rollback.toValid, toValid_of_isValid _ hv]
  · obtain ⟨d1, h1, h2⟩ := addDeployVersion_dir_raw fs serviceName version restart now d hd
    refine ⟨_, h1, ?_⟩
    rw [findServiceFromFile_dir_raw _ serviceName d1 (FS.set_same _ _ _), h2, hdep,
      findServiceFromFile_dir_raw fs serviceName d hd,
      readFile_dir fs serviceName "current" d hd, readFile_dir fs serviceName "history" d hd,
      load_current_raw, load_history_raw]

/-- The theorem of C9 on the sample service and the empty working directory, with a
version that holds a quote, a letter outside ASCII and a less-than sign. -/
theorem roundTrip_witness :
    sampleFS "api" = some (.dir sampleDir) ∧
    mkdir emptyFS "api" = Except.ok (emptyFS.set "api" []) ∧
    Response.isValid stateText = true ∧
    isValid (text "1.1.0-β \"rc\" <1>") = true ∧ isValid (text "12-31-2020:08:00:00") = true ∧
    (findServiceFromFile (writeRecords sampleFS "api" stateText) "api" = (stateText, none) ∧
    (∃ fs1, createFirstTime emptyFS "api" (text "1.1.0-β \"rc\" <1>")
        (text "12-31-2020:08:00:00") = some fs1 ∧
      findServiceFromFile fs1 "api" =
        ({ Current := { Version := text "1.1.0-β \"rc\" <1>",
                        Date := text "12-31-2020:08:00:00", Restart := false }
           Rollback := { Version := text "1.1.0-β \"rc\" <1>" }
           History := [{ Version := text "1.1.0-β \"rc\" <1>",
                         Date := text "12-31-2020:08:00:00", Restart := false }] }, none)) ∧
    (∃ fs1, addDeployVersion sampleFS "api" (text "1.1.0-β \"rc\" <1>") []
        (text "12-31-2020:08:00:00") = some fs1 ∧
      findServiceFromFile fs1 "api" =
        ({ Current :=
             { Version := text "1.1.0-β \"rc\" <1>", Date := text "12-31-2020:08:00:00",
               Restart := decide (([] : GoString).length > 0) }
           Rollback :=
             if ([] : GoString).length = 0 then
               { Version := (unmarshalDeploy (readFile sampleFS "api" "current").1).1.Version }
             else (findServiceFromFile sampleFS "api").1.Rollback
           History :=
             { Version := text "1.1.0-β \"rc\" <1>", Date := text "12-31-2020:08:00:00",
               Restart := decide (([] : GoString).length > 0) } ::
               (unmarshalHistory (readFile sampleFS "api" "history").1).1 }, none))) :=
  ⟨FS.set_same emptyFS "api" sampleDir, mkdir_emptyFS_api, by decide,
    isValid_ofText _, isValid_ofText _,
    roundTrip sampleFS emptyFS _ "api" (text "1.1.0-β \"rc\" <1>") []
      (text "12-31-2020:08:00:00") sampleDir stateText
      (FS.set_same emptyFS "api" sampleDir) mkdir_emptyFS_api (by decide)
      (isValid_ofText _) (isValid_ofText _)⟩

end Raw

end ServiceVersion
